import Mathlib

/-
Verification of the ot2aat rule converters (Scripts directory) against the
project specification.

Each Python component relevant to the frozen claims is shallowly embedded as
executable Lean definitions:

  namespace AarToMif   : Scripts/aar_to_mif_converter.py
                         (ClassPartitioner, AARParser contextual rules, MIFGenerator)
  namespace GsubToAar  : Scripts/gsubfea2morxaar.py
                         (GSUBToAAR: inline classes, rearrangement, lookup output)
  namespace GposToKerx : Scripts/gpos_to_kerx_converter.py
                         (AARToATIFConverter anchor index assignment; the loop at
                          lines 229-237 is textually identical in
                          Scripts/gposaar2kerxatif.py lines 194-201)
  namespace GposFea    : Scripts/gposfea2kerxaar.py
                         (SemanticGroup, OTToOT2AAT.compute_semantic_groups)

Modelling conventions, used throughout:
  - Python dicts (all insertion-ordered) are association lists; a dict key test
    or read is a first-match search on the list.
  - Python sets are modelled as duplicate-free lists in first-insertion order;
    only their membership is observable in the embedded code paths (noted where
    an iteration order of a set could matter).
  - Python's stable list.sort / sorted is modelled by List.insertionSort, which
    is stable and produces the same output as every stable sort.
  - Python string comparison (by code point) is the lexicographic comparison
    charListLt on the character lists.
  - Machine integers do not overflow in these scripts (coordinates are small
    font units), so Python int is Int and list indices are Nat.
-/

/-! Generic helpers shared by the embeddings. -/
/-- Duplicate removal keeping the first occurrence, with the elements already
seen accumulated on the left. -/
def dedupFirstAux {α : Type} [DecidableEq α] (seen : List α) : List α → List α
  | [] => []
  | a :: l =>
    if a ∈ seen then dedupFirstAux seen l
    else a :: dedupFirstAux (seen ++ [a]) l

/-- Duplicate removal keeping the first occurrence, in order: the contents of a
Python set or dict-key sequence built by successive insertion. -/
def dedupFirst {α : Type} [DecidableEq α] (l : List α) : List α :=
  dedupFirstAux [] l

/-- Lexicographic comparison of character lists: Python string lt (comparison
by code points). -/
def charListLt : List Char → List Char → Bool
  | [], [] => false
  | [], _ :: _ => true
  | _ :: _, [] => false
  | a :: as, b :: bs => if a = b then charListLt as bs else decide (a < b)

/-- Python string lt. -/
def strLt (a b : String) : Bool := charListLt a.toList b.toList

/-- Python string le, as needed to model the stable ascending sorted(). -/
def strLe (a b : String) : Bool := strLt a b || a = b

/-- Python sorted() on a list of strings. -/
def sortStrings (l : List String) : List String :=
  List.insertionSort (fun a b => strLe a b = true) l

/-- Python str.split() with no argument: split on whitespace runs, dropping
empty pieces. -/
def splitWS (s : String) : List String :=
  ((s.toList.splitOnP (fun c => c.isWhitespace)).filter (fun p => p ≠ [])).map String.mk

/-- Python str.strip(): drop leading and trailing whitespace. -/
def pyStrip (s : String) : String :=
  String.mk (((s.toList.dropWhile (fun c => c.isWhitespace)).reverse.dropWhile
      (fun c => c.isWhitespace)).reverse)

/-- Python str.split(sep) on the character-list level, fuelled by the input
length so that the recursion is structural (sep is nonempty at every call site
of the source; an empty sep is treated as never matching, where Python would
raise). -/
def splitOnCharsFuel (sep : List Char) : Nat → List Char → List (List Char)
  | _, [] => [[]]
  | 0, l => [l]
  | fuel + 1, c :: rest =>
    if sep ≠ [] ∧ sep.isPrefixOf (c :: rest) then
      [] :: splitOnCharsFuel sep fuel ((c :: rest).drop sep.length)
    else
      match splitOnCharsFuel sep fuel rest with
      | [] => [[c]]
      | p :: ps => (c :: p) :: ps

/-- Python str.split(sep) (sep nonempty, as in every call site of the source). -/
def pySplit (s : String) (sep : String) : List String :=
  (splitOnCharsFuel sep.toList s.toList.length s.toList).map String.mk

/-- Python substring test: needle in haystack. -/
def containsSub (needle : List Char) : List Char → Bool
  | [] => needle.isEmpty
  | c :: rest => needle.isPrefixOf (c :: rest) || containsSub needle rest

/-- Python str.lower() restricted to ASCII, which covers the feature-file
content these converters lowercase. -/
def pyLower (s : String) : String := String.mk (s.toList.map Char.toLower)

/-- Python format spec {:<n}: left-justify, pad with spaces to width n. -/
def padRight (s : String) (n : Nat) : String :=
  s ++ String.mk (List.replicate (n - s.length) ' ')

/-- A run of n dashes, for the comment rules the generators emit. -/
def dashes (n : Nat) : String := String.mk (List.replicate n '-')

/-- Successive chunks of at most ten elements (fuelled by the input length for
structural recursion): the wrap width used by the match-class writer. -/
def chunksOfTenFuel {α : Type} : Nat → List α → List (List α)
  | _, [] => []
  | 0, l => [l]
  | fuel + 1, a :: l => (a :: l).take 10 :: chunksOfTenFuel fuel ((a :: l).drop 10)

/-- Successive chunks of at most ten elements: the wrap width used by the
match-class writer. -/
def chunksOfTen {α : Type} (l : List α) : List (List α) :=
  chunksOfTenFuel l.length l

/-- Append a suffix to the last line of a buffer (Python output[-1] += suffix). -/
def appendToLast (suffix : String) : List String → List String
  | [] => []
  | [l] => [l ++ suffix]
  | l :: rest => l :: appendToLast suffix rest

namespace AarToMif

/-!
Embedding of Scripts/aar_to_mif_converter.py.

A glyph-class table (AARParser.classes, ClassPartitioner.classes) is the
association list from class name to glyph list, in insertion order.
-/
/-- The membership set glyph_memberships[g] built at lines 254-257: the names
of all classes whose glyph list contains g (a Python set; content in
first-seen order). -/
def memberships (classes : List (String × List String)) (g : String) : List String :=
  dedupFirst ((classes.filter (fun c => g ∈ c.2)).map (fun c => c.1))

/-- The partition signature of a glyph (line 261). The source joins the sorted
names with a plus sign; names match the regex word pattern, so the joined
string determines and is determined by this sorted name list. -/
def signature (classes : List (String × List String)) (g : String) : List String :=
  sortStrings (memberships classes g)

/-- The keys of glyph_memberships, in insertion order: every glyph of every
class, first occurrence first. -/
def allGlyphs (classes : List (String × List String)) : List String :=
  dedupFirst (classes.flatMap (fun c => c.2))

/-- Append glyph g to the partition keyed sig, creating the partition at the
end if the key is new (lines 262-264). -/
def addToPartitions (ps : List (List String × List String)) (sig : List String)
    (g : String) : List (List String × List String) :=
  match ps with
  | [] => [(sig, [g])]
  | p :: rest =>
    if p.1 = sig then (p.1, p.2 ++ [g]) :: rest
    else p :: addToPartitions rest sig g

/-- ClassPartitioner.partition (lines 247-266): group every glyph that occurs
in some class by its membership signature. -/
def partitionClasses (classes : List (String × List String)) :
    List (List String × List String) :=
  (allGlyphs classes).foldl
    (fun ps g => addToPartitions ps (signature classes g) g) []

end AarToMif

/-! More generic association-list helpers (Python dict operations). -/
/-- Python dict read d.get(k) / d[k]: first entry with the key (keys are unique
in every dict the source builds). -/
def alistFind {κ α : Type} [DecidableEq κ] (l : List (κ × α)) (k : κ) : Option α :=
  (l.find? (fun e => e.1 = k)).map (fun e => e.2)

/-- Python dict assignment d[k] = v: overwrite in place, or append a new key. -/
def alistInsert {κ α : Type} [DecidableEq κ] (d : List (κ × α)) (k : κ) (v : α) :
    List (κ × α) :=
  match d with
  | [] => [(k, v)]
  | e :: rest => if e.1 = k then (e.1, v) :: rest else e :: alistInsert rest k v

/-- Python d.setdefault(k, []).append(v) pattern: append v to the list stored
under k, creating the entry at the end when the key is new. -/
def alistAppend {κ : Type} [DecidableEq κ] (d : List (κ × List String)) (k : κ)
    (v : String) : List (κ × List String) :=
  match d with
  | [] => [(k, [v])]
  | e :: rest => if e.1 = k then (e.1, e.2 ++ [v]) :: rest else e :: alistAppend rest k v

namespace GsubToAar

/-!
Embedding of Scripts/gsubfea2morxaar.py (GSUBToAAR), covering inline-class
registration, rearrangement resolution, contextual rule generation, and
generate_lookup_output.
-/
/-- ContextualSubstitution (lines 60-66). lookup_refs maps a marked index to a
lookup name. -/
structure ContextualSubstitution where
  context : List String
  markedIndices : List Nat
  lookupRefs : List (Nat × String)
deriving DecidableEq

/-- RearrangementPattern (lines 75-79). The parser only builds patterns whose
two lists have equal length, at least two. -/
structure RearrangementPattern where
  glyphs : List String
  lookupRefs : List String
deriving DecidableEq

/-- RearrangementRule (lines 69-73). -/
structure RearrangementRule where
  inputSequence : List String
  outputSequence : List String
deriving DecidableEq

/-- ParsedLookup (lines 82-98) restricted to the fields generate_lookup_output
reads, with the lookup name and flags of LookupInfo inlined. -/
structure ParsedLookup where
  name : String
  features : List String
  scripts : List String
  singleSubs : List (String × String)
  ligatures : List (String × List String)
  multipleSubs : List (String × List String)
  contextualSubs : List ContextualSubstitution
  rearrangementRules : List RearrangementRule
  rearrangementPatterns : List RearrangementPattern
  rawLines : List String
  localClasses : List (String × List String)
deriving DecidableEq

/-- GSUBToAAR converter state (lines 103-110) for the output stage. -/
structure GSUBToAAR where
  allLookups : List (String × ParsedLookup)
  globalClasses : List (String × List String)
  inlineClasses : List (String × List String)
  classCounter : Nat
deriving DecidableEq

/-- The scan of register_inline_class over the existing inline classes: the
first class name whose glyph tuple equals the given list. -/
def findExistingClass (ics : List (String × List String)) (glyphs : List String) :
    Option String :=
  match ics with
  | [] => none
  | e :: rest => if e.2 = glyphs then some e.1 else findExistingClass rest glyphs

/-- Python format spec {:03d} for the class counter. -/
def natPad3 (n : Nat) : String :=
  let s := toString n
  if s.length < 3 then String.mk (List.replicate (3 - s.length) '0') ++ s else s

/-- GSUBToAAR.register_inline_class (lines 135-147). -/
def registerInlineClass (conv : GSUBToAAR) (glyphs : List String) :
    GSUBToAAR × String :=
  match findExistingClass conv.inlineClasses glyphs with
  | some n => (conv, "@" ++ n)
  | none =>
    let counter := conv.classCounter + 1
    let className := "CLASS_" ++ natPad3 counter
    ({ conv with
        inlineClasses := conv.inlineClasses ++ [(className, glyphs)],
        classCounter := counter },
      "@" ++ className)

/-- Python element.startswith('[') and element.endswith(']'). -/
def pyIsBracketed (s : String) : Bool :=
  s.toList.head? = some '[' && s.toList.getLast? = some ']'

/-- The glyphs of a bracketed inline class: element[1:-1].split(), nonempty
entries (split() already yields none empty). -/
def bracketGlyphs (s : String) : List String :=
  splitWS (String.mk ((s.toList.drop 1).dropLast))

/-- GSUBToAAR.process_pattern_element (lines 149-159). -/
def processPatternElement (conv : GSUBToAAR) (element : String) :
    GSUBToAAR × String :=
  if pyIsBracketed element then
    let glyphs := bracketGlyphs element
    if glyphs ≠ [] then registerInlineClass conv glyphs
    else (conv, element)
  else (conv, element)

/-- process_pattern_element mapped over a list of elements, threading the
converter state. -/
def processElements (conv : GSUBToAAR) : List String → GSUBToAAR × List String
  | [] => (conv, [])
  | e :: rest =>
    let r1 := processPatternElement conv e
    let r2 := processElements r1.1 rest
    (r2.1, r1.2 :: r2.2)

/-- GSUBToAAR.expand_class_reference (lines 123-133): global classes first,
then the first lookup owning a local class of that name, else empty with a
warning. -/
def expandClassReference (conv : GSUBToAAR) (element : String) : List String :=
  if element.toList.head? = some '@' then
    let className := String.mk (element.toList.drop 1)
    match alistFind conv.globalClasses className with
    | some gs => gs
    | none =>
      match conv.allLookups.find?
          (fun e => (alistFind e.2.localClasses className).isSome) with
      | some e => (alistFind e.2.localClasses className).getD []
      | none => []
  else [element]

/-- GSUBToAAR.inline_lookup_substitutions (lines 454-459): the dict from source
to target over the lookup's single substitutions (a later duplicate source
overwrites an earlier one), empty when the lookup is unknown. -/
def inlineLookupSubstitutions (conv : GSUBToAAR) (lookupName : String) :
    List (String × String) :=
  match alistFind conv.allLookups lookupName with
  | none => []
  | some lk => lk.singleSubs.foldl (fun d s => alistInsert d s.1 s.2) []

/-- The loop of resolve_rearrangement_pattern over (glyph, lookup name) pairs:
substitutions collected in order, None at the first missing lookup or glyph
without a substitution. -/
def resolveSubsList (conv : GSUBToAAR) : List (String × String) → Option (List String)
  | [] => some []
  | p :: rest =>
    if (alistFind conv.allLookups p.2).isSome then
      match alistFind (inlineLookupSubstitutions conv p.2) p.1 with
      | some tgt => (resolveSubsList conv rest).map (fun l => tgt :: l)
      | none => none
    else none

/-- GSUBToAAR.resolve_rearrangement_pattern (lines 461-486): accept exactly
when every glyph resolves and the substituted sequence differs from the input;
the parser guarantees the two pattern lists have equal length, which the zip
assumes. -/
def resolveRearrangementPattern (conv : GSUBToAAR) (pat : RearrangementPattern) :
    Option RearrangementRule :=
  match resolveSubsList conv (pat.glyphs.zip pat.lookupRefs) with
  | none => none
  | some subs => if subs ≠ pat.glyphs then some ⟨pat.glyphs, subs⟩ else none

/-- Python ' '.join. -/
def joinSpace (l : List String) : String := String.intercalate " " l

/-- The body of generate_contextual_rules past its three guard lookups (lines
498-572), for a marked position with its lookup name and target element. -/
def contextualRulesFor (conv : GSUBToAAR) (ctx : ContextualSubstitution)
    (markedPos : Nat) (lookupName targetElement : String) :
    GSUBToAAR × List String :=
  let validSources :=
    if pyIsBracketed targetElement then bracketGlyphs targetElement
    else expandClassReference conv targetElement
  if validSources = [] then
    (conv, ["# ERROR: Cannot expand: " ++ targetElement])
  else
    let allSubs := inlineLookupSubstitutions conv lookupName
    if allSubs = [] then
      (conv, ["# ERROR: No substitutions in " ++ lookupName])
    else
      let filteredSubs := allSubs.filter (fun e => e.1 ∈ validSources)
      if filteredSubs = [] then
        (conv, ["# ERROR: No matching substitutions for " ++ targetElement])
      else
        let patternLength := ctx.context.length
        if patternLength = 1 then
          (conv, ["# ERROR: Single element context pattern: " ++
            joinSpace ctx.context])
        else if markedPos = 0 then
          let r := processElements conv (ctx.context.drop 1)
          (r.1, filteredSubs.map (fun st =>
            "before " ++ joinSpace r.2 ++ ": " ++ st.1 ++ " => " ++ st.2))
        else if markedPos = patternLength - 1 then
          let r := processElements conv (ctx.context.take markedPos)
          (r.1, filteredSubs.map (fun st =>
            "after " ++ joinSpace r.2 ++ ": " ++ st.1 ++ " => " ++ st.2))
        else
          let rb := processElements conv (ctx.context.take markedPos)
          let ra := processElements rb.1 (ctx.context.drop (markedPos + 1))
          (ra.1, filteredSubs.map (fun st =>
            "between " ++ joinSpace rb.2 ++ " and " ++ joinSpace ra.2 ++
              ": " ++ st.1 ++ " => " ++ st.2))

/-- GSUBToAAR.generate_contextual_rules (lines 488-572): the mutated converter
(inline-class registration) together with the generated rule strings. A
contextual substitution without marked indices or with a marked index outside
its context would raise in the source and is never produced by the parser; the
embedding yields no rules there. -/
def generateContextualRules (conv : GSUBToAAR) (ctx : ContextualSubstitution) :
    GSUBToAAR × List String :=
  match ctx.markedIndices.head? with
  | none => (conv, [])
  | some markedPos =>
    match alistFind ctx.lookupRefs markedPos with
    | none =>
      (conv, ["# ERROR: No lookup reference for marked position " ++ toString markedPos])
    | some lookupName =>
      match ctx.context[markedPos]? with
      | none => (conv, [])
      | some targetElement =>
        contextualRulesFor conv ctx markedPos lookupName targetElement

/-- One insertion into the grouped OrderedDict of the contextual output loop
(lines 630-641): a two-character rule string is unpacked into its characters
by the source's tuple unpacking; every other string lands in the single error
bucket. -/
def groupedInsert (grouped : List (String × List String)) (item : String) :
    List (String × List String) :=
  match item.toList with
  | [c1, c2] => alistAppend grouped (String.mk [c1]) (String.mk [c2])
  | _ => alistAppend grouped "error" item

/-- The output pass over the grouped rules (lines 643-654). -/
def renderGrouped (grouped : List (String × List String)) : List String :=
  grouped.flatMap (fun e =>
    if ("error".toList).isPrefixOf e.1.toList then
      e.2.map (fun r => "    " ++ r)
    else
      ("    # Pattern: " ++ e.1) :: e.2.map (fun r => "    " ++ r) ++ [""])

/-- The loop over contextual substitutions feeding the grouped dict, threading
the converter. -/
def contextualGrouped (conv : GSUBToAAR) :
    List ContextualSubstitution → List (String × List String) →
      GSUBToAAR × List (String × List String)
  | [], grouped => (conv, grouped)
  | ctx :: rest, grouped =>
    let r := generateContextualRules conv ctx
    contextualGrouped r.1 rest (r.2.foldl groupedInsert grouped)

/-- The in-place mutation opening generate_lookup_output (lines 575-579):
every freshly resolved rearrangement pattern is appended to the lookup's rule
list. -/
def resolveIntoLookup (conv : GSUBToAAR) (lk0 : ParsedLookup) : ParsedLookup :=
  { lk0 with rearrangementRules := lk0.rearrangementRules ++
      lk0.rearrangementPatterns.filterMap (resolveRearrangementPattern conv) }

/-- The comment header of a lookup's output (lines 581-592). -/
def lookupHeaderLines (lk : ParsedLookup) : List String :=
  ["# " ++ dashes 76, "# Lookup: " ++ lk.name] ++
  (if lk.features ≠ [] then
    ["# Features: " ++ String.intercalate ", " lk.features] else []) ++
  (if lk.scripts ≠ [] then
    ["# Scripts: " ++ String.intercalate ", " lk.scripts] else []) ++
  ["# " ++ dashes 76] ++
  (if lk.rawLines.any (fun l => containsSub "lookupflag".toList (pyLower l).toList) then
    ["# NOTE: Original lookup has lookupflag - AAT uses exact sequential matching"]
  else [])

/-- The simple-substitution block (lines 594-598). -/
def simpleSection (lk : ParsedLookup) : List String :=
  if lk.singleSubs ≠ [] then
    ["@simple \x7b"] ++
    lk.singleSubs.map (fun s => "    " ++ s.1 ++ " -> " ++ s.2) ++ ["\x7d"]
  else []

/-- The ligature block (lines 600-605). -/
def ligatureSection (lk : ParsedLookup) : List String :=
  if lk.ligatures ≠ [] then
    ["@ligature \x7b"] ++
    lk.ligatures.map (fun l =>
      "    " ++ l.1 ++ " := " ++ String.intercalate " + " l.2) ++ ["\x7d"]
  else []

/-- The one-to-many block (lines 607-612). -/
def one2manySection (lk : ParsedLookup) : List String :=
  if lk.multipleSubs ≠ [] then
    ["@one2many \x7b"] ++
    lk.multipleSubs.map (fun m => "    " ++ m.1 ++ " > " ++ joinSpace m.2) ++ ["\x7d"]
  else []

/-- The reorder block (lines 614-620), over the already mutated rule list. -/
def reorderSection (lk : ParsedLookup) : List String :=
  if lk.rearrangementRules ≠ [] then
    ["@reorder \x7b"] ++
    lk.rearrangementRules.map (fun r =>
      "    " ++ joinSpace r.inputSequence ++ " > " ++ joinSpace r.outputSequence) ++
    ["\x7d"]
  else []

/-- The contextual block (lines 622-656), threading the converter through the
inline-class registration of rule generation. -/
def contextualSection (conv : GSUBToAAR) (lk : ParsedLookup) :
    GSUBToAAR × List String :=
  if lk.contextualSubs ≠ [] then
    let r := contextualGrouped conv lk.contextualSubs []
    (r.1, ["@contextual \x7b"] ++ renderGrouped r.2 ++ ["\x7d"])
  else (conv, [])

/-- GSUBToAAR.generate_lookup_output (lines 574-659). The call appends every
freshly resolved rearrangement pattern to the lookup's rule list (the source
mutates the lookup in place) and registers inline classes on the converter;
it returns the new converter, the mutated lookup, and the output lines. -/
def generateLookupOutput (conv : GSUBToAAR) (lk0 : ParsedLookup) :
    GSUBToAAR × ParsedLookup × List String :=
  let lk := resolveIntoLookup conv lk0
  let ctxResult := contextualSection conv lk
  (ctxResult.1, lk,
    lookupHeaderLines lk ++ simpleSection lk ++ ligatureSection lk ++
      one2manySection lk ++ reorderSection lk ++ ctxResult.2 ++ [""])

end GsubToAar

namespace AarToMif

/-!
Embedding of the MIF generation side of Scripts/aar_to_mif_converter.py:
the typed rules the AARParser produces and the MIFGenerator.
-/
/-- The rule dicts the parser builds, as a tagged union over their type tag. -/
inductive Rule where
  | simple (source target : String)
  | contextual (contextType : String) (contextClasses : List String)
      (source target : String)
  | ligature (result : String) (components : List String)
  | one2many (source : String) (targets : List String)
  | reorder (beforeSeq afterSeq : List String)
deriving DecidableEq

/-- Lookup (lines 50-56). -/
structure Lookup where
  name : String
  lookupType : String
  feature : String
  rules : List Rule
deriving DecidableEq

/-- AARParser._parse_contextual_rules (lines 146-188) applied to one line of
the block. A line holding the arrow more than once would raise in the source
(tuple unpacking of a longer split) and is skipped here. -/
def parseContextualLine (line0 : String) : Option Rule :=
  let line := pyStrip line0
  match pySplit line "=>" with
  | [left0, right0] =>
    let left := pyStrip left0
    let right := pyStrip right0
    let ctypeRest :=
      if ("before".toList).isPrefixOf left.toList then
        some ("before", pyStrip (String.mk (left.toList.drop 6)))
      else if ("after".toList).isPrefixOf left.toList then
        some ("after", pyStrip (String.mk (left.toList.drop 5)))
      else none
    match ctypeRest with
    | none => none
    | some cr =>
      match pySplit cr.2 ":" with
      | [p0, p1] =>
        some (Rule.contextual cr.1 (splitWS (pyStrip p0)) (pyStrip p1) right)
      | _ => none
  | _ => none

/-- AARParser._parse_contextual_rules over a whole rule block. -/
def parseContextualRules (content : String) : List Rule :=
  (pySplit (pyStrip content) "\n").filterMap parseContextualLine

/-- MIFGenerator state: parsed classes and lookups plus the output buffer that
generate resets on entry. -/
structure MIFGenerator where
  classes : List (String × List String)
  lookups : List Lookup
  output : List String
deriving DecidableEq

/-- MIFGenerator._write_header (lines 334-344). -/
def mifHeader : List String :=
  ["// " ++ dashes 79, "//", "//  MIF file generated from AAR format",
   "//  Generated by aar_to_mif_converter.py", "//", "// " ++ dashes 79, ""]

/-- MIFGenerator._write_section_header (lines 346-356). -/
def sectionHeader (lk : Lookup) : List String :=
  ["", "// " ++ dashes 79, "// LOOKUP: " ++ lk.name, "// Feature: " ++ lk.feature,
   "// Type: " ++ lk.lookupType, "// " ++ dashes 79, ""]

/-- Python ' '.join. -/
def joinSpace (l : List String) : String := String.intercalate " " l

/-- MIFGenerator._generate_noncontextual (lines 358-387). -/
def genNoncontextual (lk : Lookup) : List String :=
  sectionHeader lk ++
  ["Type            Noncontextual",
   "Name            " ++ lk.name,
   "Namecode        8",
   "Setting         " ++ lk.name,
   "Settingcode     1",
   "Default         no",
   "Orientation     HV",
   "Forward         yes",
   "Exclusive       yes",
   ""] ++
  lk.rules.filterMap (fun r =>
    match r with
    | Rule.simple s t => some (padRight s 20 ++ t)
    | _ => none) ++
  [""]

/-- MIFGenerator._analyze_contextual_rules (lines 434-449), predecessor half:
the context classes of the contextual rules that carry the class marker, as a
set. CPython iterates this set in hash order; the embedding fixes the
insertion order, one deterministic realization of it. -/
def analyzePredecessors (rules : List Rule) : List String :=
  dedupFirst (rules.flatMap (fun r =>
    match r with
    | Rule.contextual _ ccs _ _ => ccs.filter (fun c => c.toList.head? = some '@')
    | _ => []))

/-- Python name.lstrip(at-sign). -/
def lstripAt (s : String) : String :=
  String.mk (s.toList.dropWhile (fun c => c = '@'))

/-- MIFGenerator._create_contextual_partitions (lines 451-469); the targets
argument is unused by the source. -/
def createContextualPartitions (classes : List (String × List String))
    (predecessors : List String) : List (String × List String) :=
  predecessors.foldl (fun parts pred =>
    let className := lstripAt pred
    match alistFind classes className with
    | some gs => alistInsert parts ("PRED_" ++ className) gs
    | none => parts) []

/-- MIFGenerator._write_match_class (lines 471-487). -/
def writeMatchClass (num : Nat) (glyphs : List String) (comment : String) :
    List String :=
  let firstLine := "Match" ++ toString num ++ "          " ++ joinSpace (glyphs.take 10)
  let contLines := (chunksOfTen (glyphs.drop 10)).map
    (fun c => "+               " ++ joinSpace c)
  let ls := firstLine :: contLines
  (if comment ≠ "" then appendToLast ("  " ++ comment) ls else ls) ++ [""]

/-- MIFGenerator._generate_state_machine (lines 489-534). -/
def stateMachineLines (rules : List Rule) (numMatches : Nat) : List String :=
  let header := "                EOT OOB DEL EOL" ++
    String.join ((List.range numMatches).map (fun i => " Match" ++ toString (i + 1)))
  let row1 := padRight "StartText" 16 ++ "1   1   1   1  " ++
    String.intercalate " "
      ((List.range numMatches).map (fun i => if i = 0 then "2" else "1"))
  let row2 := padRight "SawMatch1" 16 ++ "1   1   3   1  " ++
    String.intercalate " "
      ((List.range numMatches).map (fun i =>
        if i = 0 then "2" else if i + 1 = numMatches then "4" else "1"))
  [header, row1, row2, "",
   "    GoTo            Mark?   Advance?    SubstMark   SubstCurrent",
   "1   StartText       no      yes         none        none",
   "2   SawMatch1       yes     yes         none        none",
   "3   SawMatch1       no      yes         none        none",
   "4   StartText       no      yes         none        doSubst",
   "",
   "doSubst"] ++
  rules.filterMap (fun r =>
    match r with
    | Rule.contextual _ _ src tgt => some ("    " ++ padRight src 16 ++ tgt)
    | _ => none)

/-- MIFGenerator._generate_contextual (lines 389-432). -/
def genContextual (classes : List (String × List String)) (lk : Lookup) :
    List String :=
  let predecessors := analyzePredecessors lk.rules
  let partitions := createContextualPartitions classes predecessors
  sectionHeader lk ++
  ["Type            Contextual",
   "Name            " ++ lk.name,
   "Namecode        8",
   "Setting         " ++ lk.name,
   "Settingcode     1",
   "Default         yes",
   "Orientation     HV",
   "Forward         yes",
   "Exclusive       no",
   ""] ++
  partitions.enum.flatMap (fun p =>
    writeMatchClass (p.1 + 1) p.2.2 ("// " ++ p.2.1)) ++
  stateMachineLines lk.rules partitions.length ++
  [""]

/-- MIFGenerator._generate_ligature (lines 536-564). -/
def genLigature (lk : Lookup) : List String :=
  sectionHeader lk ++
  ["Type            Ligature",
   "Name            " ++ lk.name,
   "Namecode        8",
   "Setting         " ++ lk.name,
   "Settingcode     1",
   "Default         yes",
   "Orientation     HV",
   "Forward         yes",
   "Exclusive       no",
   ""] ++
  lk.rules.filterMap (fun r =>
    match r with
    | Rule.ligature res comps => some (padRight res 20 ++ joinSpace comps)
    | _ => none) ++
  [""]

/-- The targets of the first rule, as _generate_insertion reads rules[0];
a first rule of another kind would raise KeyError in the source and cannot
occur in a parsed one2many lookup. -/
def firstRuleTargets (rules : List Rule) : List String :=
  match rules.head? with
  | some (Rule.one2many _ ts) => ts
  | _ => []

/-- MIFGenerator._generate_insertion (lines 566-610). -/
def genInsertion (lk : Lookup) : List String :=
  let sources := lk.rules.filterMap (fun r =>
    match r with
    | Rule.one2many s _ => some s
    | _ => none)
  sectionHeader lk ++
  ["Type            Insertion",
   "Name            " ++ lk.name,
   "Namecode        8",
   "Setting         " ++ lk.name,
   "Settingcode     1",
   "Default         yes",
   "Orientation     HV",
   "Forward         yes",
   "Exclusive       no",
   ""] ++
  ["Match1          " ++ joinSpace sources, ""] ++
  ["                EOT OOB DEL EOL Match1",
   "StartText       1   1   1   1   2",
   "StartLine       1   1   1   1   2",
   "",
   "    GoTo            Mark?   Advance?    InsertMark  InsertCurrent",
   "1   StartText       no      yes         none        none",
   "2   StartText       no      yes         none        doInsert",
   "",
   "doInsert",
   "    IsKashidaLike   yes",
   "    InsertBefore    no",
   (if lk.rules ≠ [] then
     "    Glyphs          " ++ joinSpace (firstRuleTargets lk.rules)
   else ""),
   ""]

/-- MIFGenerator._generate_rearrangement (lines 612-657): emitted for the
first reorder rule only, always with the swap verb; a first rule of another
kind would raise KeyError in the source and cannot occur in a parsed reorder
lookup. -/
def genRearrangement (lk : Lookup) : List String :=
  sectionHeader lk ++
  ["Type            Rearrangement",
   "Name            " ++ lk.name,
   "Namecode        8",
   "Setting         " ++ lk.name,
   "Settingcode     1",
   "Default         yes",
   "Orientation     HV",
   "Forward         yes",
   "Exclusive       no",
   ""] ++
  (match lk.rules.head? with
   | some (Rule.reorder bef _) =>
     ["Match1          " ++ bef.headD "",
      "Match2          " ++ (bef.drop 1).headD "",
      "",
      "                EOT OOB DEL EOL Match1  Match2",
      "StartText       1   1   1   1   2       1",
      "StartLine       1   1   1   1   2       1",
      "SawMatch1       1   1   3   1   2       4",
      "",
      "    GoTo        MarkFirst?  MarkLast?   Advance?    DoThis",
      "1   StartText   no          no          yes         none",
      "2   SawMatch1   yes         no          yes         none",
      "3   SawMatch1   no          no          yes         none",
      "4   StartText   no          yes         yes         xD->Dx",
      ""]
   | _ => [])

/-- The full output buffer MIFGenerator.generate builds from the parsed
classes and lookups (lines 312-332): header, then each lookup dispatched on
its type tag, unknown tags contributing nothing. -/
def mifLines (classes : List (String × List String)) (lookups : List Lookup) :
    List String :=
  mifHeader ++ lookups.flatMap (fun lk =>
    if lk.lookupType = "simple" then genNoncontextual lk
    else if lk.lookupType = "contextual" then genContextual classes lk
    else if lk.lookupType = "ligature" then genLigature lk
    else if lk.lookupType = "one2many" then genInsertion lk
    else if lk.lookupType = "reorder" then genRearrangement lk
    else [])

/-- MIFGenerator.generate (lines 312-332): reset the output buffer, emit every
lookup, return the joined text. -/
def MIFGenerator.generate (g : MIFGenerator) : MIFGenerator × String :=
  let out := mifLines g.classes g.lookups
  ({ g with output := out }, String.intercalate "\n" out)

end AarToMif

namespace GposToKerx

/-!
Embedding of Scripts/gpos_to_kerx_converter.py (AARToATIFConverter): the
anchor index assignments of the two control-point subtables of generate_atif.
An anchor record is (group or glyph name, x, y); an attachment dict maps a
group name to a point.
-/
/-- The converter state after parse_aar: mark_groups, bases and mark2mark in
insertion order. -/
structure ConvState where
  markGroups : List (String × List (String × Int × Int))
  bases : List (String × List (String × Int × Int))
  mark2mark : List (String × List (String × Int × Int))
deriving DecidableEq

/-- One emitted anchor declaration line. -/
def anchorLine (glyph : String) (idx : Nat) (x y : Int) : String :=
  "    anchor " ++ glyph ++ "[" ++ toString idx ++ "] := (" ++ toString x ++
    ", " ++ toString y ++ ");"

/-- Table 1 mark anchors (lines 220-227): every mark of every group is
assigned index 0. -/
def table1MarkAssignments (st : ConvState) : List (String × Nat × Int × Int) :=
  st.markGroups.flatMap (fun g => g.2.map (fun m => (m.1, 0, m.2.1, m.2.2)))

/-- Table 1 base anchors (lines 229-237): each base glyph is assigned, for
every mark group present in its attachment dict, the index of that group in
the global group list. The loop at lines 194-201 of gposaar2kerxatif.py is
identical. -/
def table1BaseAssignments (st : ConvState) : List (String × Nat × Int × Int) :=
  let groupNames := st.markGroups.map (fun g => g.1)
  st.bases.flatMap (fun b =>
    groupNames.enum.filterMap (fun ig =>
      match (b.2.find? (fun a => a.1 = ig.2)) with
      | some a => some (b.1, ig.1, a.2.1, a.2.2)
      | none => none))

/-- All anchor assignments of the mark-to-base subtable, in emission order. -/
def table1Assignments (st : ConvState) : List (String × Nat × Int × Int) :=
  table1MarkAssignments st ++ table1BaseAssignments st

/-- marks_serving_as_bases (line 303): the keys of mark2mark. -/
def marksServingAsBases (st : ConvState) : List String :=
  st.mark2mark.map (fun b => b.1)

/-- attaching_groups (lines 306-308): every group referenced by some mark2mark
attachment dict (a set, modelled in first-insertion order). -/
def attachingGroups (st : ConvState) : List String :=
  dedupFirst (st.mark2mark.flatMap (fun b => b.2.map (fun a => a.1)))

/-- marks_only_attaching (lines 301-314): members of a referenced group that do
not themselves serve as mark2mark bases. -/
def marksOnlyAttaching (st : ConvState) : List String :=
  dedupFirst ((attachingGroups st).flatMap (fun gn =>
    match alistFind st.markGroups gn with
    | some marks =>
      marks.filterMap (fun m =>
        if m.1 ∈ marksServingAsBases st then none else some m.1)
    | none => []))

/-- Table 2 attaching-mark anchors (lines 318-328): for each only-attaching
mark, in sorted order, one index-1 assignment per mark group containing it
(the source breaks out of the inner loop after the first matching mark of a
group and then continues with the next group). -/
def table2AttachingAssignments (st : ConvState) : List (String × Nat × Int × Int) :=
  (sortStrings (marksOnlyAttaching st)).flatMap (fun g =>
    st.markGroups.filterMap (fun grp =>
      match grp.2.find? (fun m => m.1 = g) with
      | some m => some (g, 1, m.2.1, m.2.2)
      | none => none))

/-- Table 2 base-mark anchors (lines 330-336): every attachment point of every
mark2mark base is emitted at index 1. -/
def table2BaseAssignments (st : ConvState) : List (String × Nat × Int × Int) :=
  st.mark2mark.flatMap (fun b => b.2.map (fun a => (b.1, 1, a.2.1, a.2.2)))

/-- All anchor assignments of the mark-to-mark subtable, in emission order. -/
def table2Assignments (st : ConvState) : List (String × Nat × Int × Int) :=
  table2AttachingAssignments st ++ table2BaseAssignments st

/-- The anchor indices a glyph receives within one subtable's assignment
list. -/
def indicesOf (assignments : List (String × Nat × Int × Int)) (g : String) :
    List Nat :=
  assignments.filterMap (fun a => if a.1 = g then some a.2.1 else none)

end GposToKerx

namespace GposFea

/-!
Embedding of Scripts/gposfea2kerxaar.py: SemanticGroup and
OTToOT2AAT.compute_semantic_groups.
-/
/-- Mark (lines 22-31). -/
structure Mark where
  glyph : String
  x : Int
  y : Int
  otClass : String
deriving DecidableEq

/-- The converter state compute_semantic_groups reads: ot_marks,
base_attachments and ligature_attachments in insertion order. -/
structure FeaState where
  otMarks : List (String × List (String × Int × Int))
  baseAttachments : List (String × List (String × Int × Int))
  ligatureAttachments : List (String × List (String × List (Int × Int)))
deriving DecidableEq

/-- The marks recorded for an OpenType class (empty for an unknown class). -/
def marksOf (st : FeaState) (c : String) : List (String × Int × Int) :=
  (alistFind st.otMarks c).getD []

/-- mark_identity_to_classes[(glyph, x, y)] (lines 427-431): the classes whose
mark list contains the identical triple (a set; content in key order). -/
def classesOfMark (st : FeaState) (t : String × Int × Int) : List String :=
  (st.otMarks.filter (fun e => t ∈ e.2)).map (fun e => e.1)

/-- related_classes for a scanned class (lines 441-447): the class itself plus
every class sharing at least one identical mark triple with it (one step, not
a transitive closure). A set; modelled in first-seen order. -/
def relatedClasses (st : FeaState) (c : String) : List String :=
  dedupFirst (c :: (marksOf st c).flatMap (classesOfMark st))

/-- The grouping loop of Step 2 (lines 433-450): scan the classes in key
order; an unprocessed class contributes the pair (leader, its related-class
set) and all of these become processed. -/
def groupsAux (st : FeaState) : List String → List String → List (String × List String)
  | [], _ => []
  | c :: rest, processed =>
    if c ∈ processed then groupsAux st rest processed
    else (c, relatedClasses st c) :: groupsAux st rest (processed ++ relatedClasses st c)

/-- ot_class_groups with their leaders. -/
def leaderGroups (st : FeaState) : List (String × List String) :=
  groupsAux st (st.otMarks.map (fun e => e.1)) []

/-- ot_class_groups (line 434). -/
def otClassGroups (st : FeaState) : List (List String) :=
  (leaderGroups st).map (fun g => g.2)

/-- The classes that start a group when scanned (the first member of each
emitted related-class set in scan order). -/
def groupLeaders (st : FeaState) : List String :=
  (leaderGroups st).map (fun g => g.1)

/-- attachment_ys of Step 3 (lines 456-470): the matching base-attachment Y
values are collected once per class of the group (the outer loop over the
group multiplies them), then the ligature-attachment Y values of each class
once. -/
def attachmentYs (st : FeaState) (group : List String) : List Int :=
  group.flatMap (fun _ =>
    st.baseAttachments.flatMap (fun b =>
      b.2.filterMap (fun a => if a.1 ∈ group then some a.2.2 else none))) ++
  group.flatMap (fun c =>
    st.ligatureAttachments.flatMap (fun lig =>
      match alistFind lig.2 c with
      | some ys => ys.map (fun p => p.2)
      | none => []))

/-- Python sorted() on integers. -/
def sortInt (l : List Int) : List Int :=
  List.insertionSort (fun a b : Int => a ≤ b) l

/-- The sort key of a group (lines 472-484): the upper median of the collected
attachment Ys, else the upper median of the distinct mark Ys, else 0. -/
def medianKey (st : FeaState) (group : List String) : Int :=
  let ys := attachmentYs st group
  if ys ≠ [] then (sortInt ys).getD (ys.length / 2) 0
  else
    let markYs := group.flatMap (fun c => (marksOf st c).map (fun m => m.2.2))
    let dYs := sortInt (dedupFirst markYs)
    if dYs ≠ [] then dYs.getD (dYs.length / 2) 0 else 0

/-- group_base_ys after the stable sort of Step 4 (line 487), keyed groups in
ascending median order; insertionSort realizes Python's stable list.sort. -/
def sortedGroups (st : FeaState) : List ((String × List String) × Int) :=
  List.insertionSort (fun a b => a.2 ≤ b.2)
    ((leaderGroups st).map (fun g => (g, medianKey st g.2)))

/-- The semantic name of the group at a position, by group count (lines
490-506). -/
def semanticName (numGroups idx : Nat) : String :=
  if numGroups = 1 then "ATTACHMENT_0"
  else if numGroups = 2 then (if idx = 0 then "BOTTOM" else "TOP")
  else if numGroups = 3 then
    (if idx = 0 then "BOTTOM" else if idx = 1 then "MIDDLE" else "TOP")
  else "ATTACHMENT_" ++ toString idx

/-- ot_class_to_semantic (lines 508-510): each class of each group is assigned
the group's name; a class occurring in several groups keeps the last
assignment. -/
def otClassToSemantic (st : FeaState) (c : String) : Option String :=
  let n := (sortedGroups st).length
  (sortedGroups st).enum.foldl
    (fun acc ig => if c ∈ ig.2.1.2 then some (semanticName n ig.1) else acc) none

/-- Lexicographic order on (glyph, x, y) triples: Python tuple comparison, as
used by sorted(unique_marks). -/
def tripleLe (a b : String × Int × Int) : Bool :=
  if a.1 ≠ b.1 then strLt a.1 b.1
  else if a.2.1 ≠ b.2.1 then decide (a.2.1 < b.2.1)
  else decide (a.2.2 ≤ b.2.2)

/-- sorted(unique_marks) of Step 5 (lines 517-524): the distinct mark triples
of the group's classes in ascending tuple order. -/
def groupUniqueSortedMarks (st : FeaState) (group : List String) :
    List (String × Int × Int) :=
  List.insertionSort (fun a b => tripleLe a b = true)
    (dedupFirst (group.flatMap (marksOf st)))

/-- SemanticGroup.add_mark (lines 41-44): ignore a mark whose glyph was
already added. -/
def addMark (marks : List Mark) (m : Mark) : List Mark :=
  if m.glyph ∈ marks.map (fun x => x.glyph) then marks else marks ++ [m]

/-- The loop adding the sorted unique marks of one group (lines 523-526);
representative is list(class_group)[0], modelled as the group's first-seen
class. -/
def addMarksLoop (representative : String) (acc : List Mark) :
    List (String × Int × Int) → List Mark
  | [] => acc
  | t :: rest =>
    addMarksLoop representative (addMark acc ⟨t.1, t.2.1, t.2.2, representative⟩) rest

/-- The marks of one semantic group. -/
def buildGroupMarks (st : FeaState) (group : List String) : List Mark :=
  addMarksLoop (group.headD "") [] (groupUniqueSortedMarks st group)

/-- self.semantic_groups after compute_semantic_groups (lines 489-526): one
named group per sorted class group. Names are pairwise distinct for any fixed
count, so the member test at line 513 always creates a fresh group. -/
def semanticGroups (st : FeaState) : List (String × List Mark) :=
  let n := (sortedGroups st).length
  (sortedGroups st).enum.map (fun ig =>
    (semanticName n ig.1, buildGroupMarks st ig.2.1.2))

/-- Modelled from the spec: the median Y of a group's base and ligature
attachment points, each attachment point contributing its Y once (section 4.3
step 2 of the spec); stated for comparison with the code's medianKey, which
multiplies the base Ys by the class count of the group. -/
def specAttachmentYs (st : FeaState) (group : List String) : List Int :=
  st.baseAttachments.flatMap (fun b =>
    b.2.filterMap (fun a => if a.1 ∈ group then some a.2.2 else none)) ++
  group.flatMap (fun c =>
    st.ligatureAttachments.flatMap (fun lig =>
      match alistFind lig.2 c with
      | some ys => ys.map (fun p => p.2)
      | none => []))

/-- Modelled from the spec: the upper median of the spec-side attachment Y
list (on the counterexample inputs every median convention agrees). -/
def specAttachmentMedian (st : FeaState) (group : List String) : Int :=
  (sortInt (specAttachmentYs st group)).getD ((specAttachmentYs st group).length / 2) 0

end GposFea

namespace GsubToAar

/-- A lookup with every field empty. -/
def emptyLookup : ParsedLookup := ⟨"", [], [], [], [], [], [], [], [], [], []⟩

/-- lookup_1 of the rearrangement examples: maps g1 to g1. -/
def exLookupOne : ParsedLookup :=
  { emptyLookup with name := "lookup_1", singleSubs := [("g1", "g1")] }

/-- lookup_2 of the rearrangement examples: maps g2 to g3. -/
def exLookupTwo : ParsedLookup :=
  { emptyLookup with name := "lookup_2", singleSubs := [("g2", "g3")] }

/-- A converter holding the two single-substitution lookups. -/
def exConv : GSUBToAAR :=
  ⟨[("lookup_1", exLookupOne), ("lookup_2", exLookupTwo)], [], [], 0⟩

/-- The pattern sub g1' lookup_1 g2' lookup_2, which resolves to the
non-permutation output [g1, g3]. -/
def exPattern : RearrangementPattern := ⟨["g1", "g2"], ["lookup_1", "lookup_2"]⟩

/-- A reorder lookup carrying only that pattern. -/
def exReorderLookup : ParsedLookup :=
  { emptyLookup with name := "reorder1", rearrangementPatterns := [exPattern] }

/-- A lookup with one simple substitution and no rearrangement patterns. -/
def exSimpleLookup : ParsedLookup :=
  { emptyLookup with name := "simple1", singleSubs := [("a", "b")] }

end GsubToAar

namespace GposToKerx

/-- Two mark groups and a base attaching only the second: the failing input of
the anchor-gap bug. -/
def exGapState : ConvState :=
  ⟨[("TOP", [("acute", 100, 500)]), ("BOTTOM", [("dotbelow", 100, -50)])],
   [("ka", [("BOTTOM", 250, -20)])], []⟩

/-- A state whose glyph acute is both a mark2mark base and a member of the
referenced group TOP (a dual-role mark). -/
def exDualState : ConvState :=
  ⟨[("TOP", [("acute", 0, 500), ("circumflex", 0, 520)])], [],
   [("acute", [("TOP", 0, 560)])]⟩

end GposToKerx

namespace GposFea

/-- Classes A and B merge through the shared triple (s, 5, 5); the group's
base-attachment Ys are doubled by the class-count loop while the ligature Ys
are not, pulling the computed key to 0 although the median attachment Y is
1000; class C forms a separate group with key 500. -/
def exMedianState : FeaState :=
  ⟨[("A", [("s", 5, 5), ("a1", 0, 0)]), ("B", [("s", 5, 5), ("s", 9, 9)]),
    ("C", [("c1", 0, 0)])],
   [("kaa", [("A", 10, 0), ("B", 20, 0), ("C", 30, 500)])],
   [("lig", [("A", [(0, 1000), (0, 1000), (0, 1000)])])]⟩

/-- L1 absorbs A (shared (u,1,1)) and L2 absorbs B (shared (v,2,2)) before
either is scanned, so A and B stay in different groups although they share the
triple (t,3,3); both groups get median key 3, a tie. -/
def exChainState : FeaState :=
  ⟨[("L1", [("u", 1, 1)]), ("L2", [("v", 2, 2)]),
    ("A", [("u", 1, 1), ("t", 3, 3)]), ("B", [("t", 3, 3), ("v", 2, 2)])],
   [], []⟩

end GposFea

namespace AarToMif

/-- The concrete contextual block of the C8 examples: one rule with an
eleven-class context and a sibling rule with a one-class context. -/
def exLongContent : String :=
  "after @C1 @C2 @C3 @C4 @C5 @C6 @C7 @C8 @C9 @C10 @C11: x => y\nafter @C1: z => w"

/-- The eleven context classes of the long rule. -/
def exLongClasses : List String :=
  ["@C1", "@C2", "@C3", "@C4", "@C5", "@C6", "@C7", "@C8", "@C9", "@C10", "@C11"]

/-- The lookup holding the parsed block. -/
def exLongLookup : Lookup :=
  ⟨"ctx1", "contextual", "liga", parseContextualRules exLongContent⟩

end AarToMif

namespace GsubToAar

/-- The converter after a generation step extends the one before it: inline
classes only grow at the end, and the read-only tables are untouched. -/
def Pre (c d : GSUBToAAR) : Prop :=
  (∃ t, d.inlineClasses = c.inlineClasses ++ t) ∧
  d.globalClasses = c.globalClasses ∧ d.allLookups = c.allLookups


end GsubToAar

namespace GposFea

instance : IsTotal ((String × List String) × Int) (fun a b => a.2 ≤ b.2) :=
  ⟨fun a b => le_total a.2 b.2⟩

instance : IsTrans ((String × List String) × Int) (fun a b => a.2 ≤ b.2) :=
  ⟨fun _ _ _ h1 h2 => le_trans h1 h2⟩

end GposFea

/-! Theorems. -/

theorem mem_dedupFirstAux {α : Type} [DecidableEq α] (l : List α) :
    ∀ (seen : List α) (x : α), x ∈ dedupFirstAux seen l ↔ x ∈ l ∧ x ∉ seen := by
  induction l with
  | nil => intro seen x; simp [dedupFirstAux]
  | cons a t ih =>
    intro seen x
    unfold dedupFirstAux
    by_cases ha : a ∈ seen
    · rw [if_pos ha, ih]
      constructor
      · rintro ⟨hx, hs⟩; exact ⟨List.mem_cons_of_mem _ hx, hs⟩
      · rintro ⟨hx, hs⟩
        rcases List.mem_cons.1 hx with rfl | hx
        · exact absurd ha hs
        · exact ⟨hx, hs⟩
    · rw [if_neg ha]
      constructor
      · intro hx
        rcases List.mem_cons.1 hx with rfl | hx
        · exact ⟨List.mem_cons_self _ _, ha⟩
        · rcases (ih _ _).1 hx with ⟨h1, h2⟩
          refine ⟨List.mem_cons_of_mem _ h1, fun hs => h2 ?_⟩
          exact List.mem_append.2 (Or.inl hs)
      · rintro ⟨hx, hs⟩
        rcases List.mem_cons.1 hx with rfl | hx
        · exact List.mem_cons_self _ _
        · by_cases hxa : x = a
          · subst hxa; exact List.mem_cons_self _ _
          · refine List.mem_cons_of_mem _ ((ih _ _).2 ⟨hx, fun hm => ?_⟩)
            rcases List.mem_append.1 hm with hm | hm
            · exact hs hm
            · simp only [List.mem_singleton] at hm; exact hxa hm

theorem mem_dedupFirst {α : Type} [DecidableEq α] (l : List α) (x : α) :
    x ∈ dedupFirst l ↔ x ∈ l := by
  rw [dedupFirst, mem_dedupFirstAux]
  simp

theorem nodup_dedupFirstAux {α : Type} [DecidableEq α] (l : List α) :
    ∀ (seen : List α), (dedupFirstAux seen l).Nodup := by
  induction l with
  | nil => intro seen; simp [dedupFirstAux]
  | cons a t ih =>
    intro seen
    unfold dedupFirstAux
    by_cases ha : a ∈ seen
    · rw [if_pos ha]; exact ih seen
    · rw [if_neg ha]
      refine List.nodup_cons.2 ⟨?_, ih _⟩
      intro hmem
      rcases (mem_dedupFirstAux t _ a).1 hmem with ⟨_, hs⟩
      exact hs (List.mem_append.2 (Or.inr (List.mem_singleton.2 rfl)))

theorem nodup_dedupFirst {α : Type} [DecidableEq α] (l : List α) :
    (dedupFirst l).Nodup :=
  nodup_dedupFirstAux l []

theorem mem_sortStrings (l : List String) (x : String) :
    x ∈ sortStrings l ↔ x ∈ l :=
  (List.perm_insertionSort _ l).mem_iff

namespace AarToMif

theorem mem_signature (classes : List (String × List String)) (g c : String) :
    c ∈ signature classes g ↔ ∃ e ∈ classes, e.1 = c ∧ g ∈ e.2 := by
  unfold signature memberships
  rw [mem_sortStrings, mem_dedupFirst, List.mem_map]
  constructor
  · rintro ⟨e, he, rfl⟩
    rcases List.mem_filter.1 he with ⟨hmem, hg⟩
    exact ⟨e, hmem, rfl, by simpa using hg⟩
  · rintro ⟨e, he, rfl, hg⟩
    exact ⟨e, List.mem_filter.2 ⟨he, by simpa using hg⟩, rfl⟩

theorem mem_allGlyphs (classes : List (String × List String)) (g : String) :
    g ∈ allGlyphs classes ↔ ∃ c ∈ classes, g ∈ c.2 := by
  unfold allGlyphs
  rw [mem_dedupFirst, List.mem_flatMap]

theorem addToPartitions_nil (sig : List String) (g : String) :
    addToPartitions [] sig g = [(sig, [g])] := rfl

theorem addToPartitions_cons (q : List String × List String)
    (rest : List (List String × List String)) (sig : List String) (g : String) :
    addToPartitions (q :: rest) sig g =
      if q.1 = sig then (q.1, q.2 ++ [g]) :: rest
      else q :: addToPartitions rest sig g := rfl

theorem exists_mem_addToPartitions (ps : List (List String × List String))
    (sig : List String) (g x : String) :
    (∃ p ∈ addToPartitions ps sig g, x ∈ p.2) ↔ (∃ p ∈ ps, x ∈ p.2) ∨ x = g := by
  induction ps with
  | nil => simp [addToPartitions_nil, eq_comm]
  | cons q rest ih =>
    rw [addToPartitions_cons]
    by_cases hq : q.1 = sig
    · rw [if_pos hq]
      constructor
      · rintro ⟨p, hp, hx⟩
        rcases List.mem_cons.1 hp with hp | hp
        · subst hp
          rcases List.mem_append.1 hx with hx | hx
          · exact Or.inl ⟨q, List.mem_cons_self _ _, hx⟩
          · exact Or.inr (by simpa using hx)
        · exact Or.inl ⟨p, List.mem_cons_of_mem _ hp, hx⟩
      · rintro (⟨p, hp, hx⟩ | hxg)
        · rcases List.mem_cons.1 hp with hp | hp
          · exact ⟨(q.1, q.2 ++ [g]), List.mem_cons_self _ _,
              List.mem_append.2 (Or.inl (hp ▸ hx))⟩
          · exact ⟨p, List.mem_cons_of_mem _ hp, hx⟩
        · exact ⟨(q.1, q.2 ++ [g]), List.mem_cons_self _ _,
            List.mem_append.2 (Or.inr (by simp [hxg]))⟩
    · rw [if_neg hq]
      constructor
      · rintro ⟨p, hp, hx⟩
        rcases List.mem_cons.1 hp with hp | hp
        · exact Or.inl ⟨q, List.mem_cons_self _ _, hp ▸ hx⟩
        · rcases ih.1 ⟨p, hp, hx⟩ with ⟨p', hp', hx'⟩ | h
          · exact Or.inl ⟨p', List.mem_cons_of_mem _ hp', hx'⟩
          · exact Or.inr h
      · rintro (⟨p, hp, hx⟩ | hxg)
        · rcases List.mem_cons.1 hp with hp | hp
          · exact ⟨q, List.mem_cons_self _ _, hp ▸ hx⟩
          · rcases ih.2 (Or.inl ⟨p, hp, hx⟩) with ⟨p', hp', hx'⟩
            exact ⟨p', List.mem_cons_of_mem _ hp', hx'⟩
        · rcases ih.2 (Or.inr hxg) with ⟨p', hp', hx'⟩
          exact ⟨p', List.mem_cons_of_mem _ hp', hx'⟩

theorem keys_addToPartitions (ps : List (List String × List String))
    (sig : List String) (g : String) :
    (addToPartitions ps sig g).map Prod.fst =
      if sig ∈ ps.map Prod.fst then ps.map Prod.fst else ps.map Prod.fst ++ [sig] := by
  induction ps with
  | nil => simp [addToPartitions]
  | cons q rest ih =>
    unfold addToPartitions
    by_cases hq : q.1 = sig
    · simp [hq]
    · have : (sig ∈ q.1 :: rest.map Prod.fst) ↔ sig ∈ rest.map Prod.fst := by
        simp [Ne.symm hq]
      by_cases hmem : sig ∈ rest.map Prod.fst
      · simp [hq, hmem, ih, this]
      · simp [hq, hmem, ih, this]

theorem sigcorrect_addToPartitions (classes : List (String × List String))
    (ps : List (List String × List String)) (g : String)
    (hps : ∀ p ∈ ps, ∀ x ∈ p.2, signature classes x = p.1) :
    ∀ p ∈ addToPartitions ps (signature classes g) g, ∀ x ∈ p.2,
      signature classes x = p.1 := by
  induction ps with
  | nil =>
    intro p hp x hx
    simp only [addToPartitions, List.mem_singleton] at hp
    subst hp
    simp only [List.mem_singleton] at hx
    subst hx; rfl
  | cons q rest ih =>
    intro p hp x hx
    unfold addToPartitions at hp
    by_cases hq : q.1 = signature classes g
    · rw [if_pos hq] at hp
      rcases List.mem_cons.1 hp with hp | hp
      · subst hp
        rcases List.mem_append.1 hx with hx | hx
        · exact hps q (List.mem_cons_self _ _) x hx
        · simp only [List.mem_singleton] at hx
          subst hx; exact hq.symm
      · exact hps p (List.mem_cons_of_mem _ hp) x hx
    · rw [if_neg hq] at hp
      rcases List.mem_cons.1 hp with hp | hp
      · subst hp; exact hps p (List.mem_cons_self _ _) x hx
      · exact ih (fun p' hp' => hps p' (List.mem_cons_of_mem _ hp')) p hp x hx

theorem partition_fold_inv (classes : List (String × List String)) :
    ∀ (l : List String) (ps : List (List String × List String)),
      (∀ p ∈ ps, ∀ x ∈ p.2, signature classes x = p.1) →
      ((ps.map Prod.fst).Nodup) →
      (∀ p ∈ l.foldl (fun ps g => addToPartitions ps (signature classes g) g) ps,
          ∀ x ∈ p.2, signature classes x = p.1) ∧
      ((l.foldl (fun ps g => addToPartitions ps (signature classes g) g) ps).map
          Prod.fst).Nodup := by
  intro l
  induction l with
  | nil => intro ps h1 h2; exact ⟨h1, h2⟩
  | cons g rest ih =>
    intro ps h1 h2
    simp only [List.foldl_cons]
    apply ih
    · exact sigcorrect_addToPartitions classes ps g h1
    · rw [keys_addToPartitions]
      by_cases hmem : signature classes g ∈ ps.map Prod.fst
      · simpa [hmem] using h2
      · simp only [if_neg hmem]
        refine List.Nodup.append h2 (by simp) ?_
        intro a ha hb
        simp only [List.mem_singleton] at hb
        subst hb; exact hmem ha

theorem partition_fold_mem (classes : List (String × List String)) :
    ∀ (l : List String) (ps : List (List String × List String)) (x : String),
      (∃ p ∈ l.foldl (fun ps g => addToPartitions ps (signature classes g) g) ps,
          x ∈ p.2) ↔ (∃ p ∈ ps, x ∈ p.2) ∨ x ∈ l := by
  intro l
  induction l with
  | nil => intro ps x; simp
  | cons g rest ih =>
    intro ps x
    simp only [List.foldl_cons]
    rw [ih, exists_mem_addToPartitions, List.mem_cons]
    exact or_assoc

end AarToMif

/-- Claim C1: for every input map of (possibly overlapping) glyph classes,
ClassPartitioner.partition returns partitions that are pairwise disjoint, whose
union equals the union of all input classes' glyph sets, in which every glyph's
partition signature equals exactly the set of class names containing that
glyph, and a glyph belonging to zero classes appears in no partition. -/
theorem c1_partition_disjoint_cover_signature (classes : List (String × List String)) :
    ((AarToMif.partitionClasses classes).Pairwise
        (fun p q => ∀ g, g ∈ p.2 → g ∉ q.2)) ∧
    (∀ g, (∃ p ∈ AarToMif.partitionClasses classes, g ∈ p.2) ↔
        ∃ c ∈ classes, g ∈ c.2) ∧
    (∀ p ∈ AarToMif.partitionClasses classes, ∀ g ∈ p.2, ∀ c,
        c ∈ p.1 ↔ ∃ e ∈ classes, e.1 = c ∧ g ∈ e.2) ∧
    (∀ g, (∀ c ∈ classes, g ∉ c.2) →
        ∀ p ∈ AarToMif.partitionClasses classes, g ∉ p.2) := by
  obtain ⟨hsig, hkeys⟩ :=
    AarToMif.partition_fold_inv classes (AarToMif.allGlyphs classes) []
      (by simp) (by simp)
  have hmem : ∀ x, (∃ p ∈ AarToMif.partitionClasses classes, x ∈ p.2) ↔
      ∃ c ∈ classes, x ∈ c.2 := by
    intro x
    rw [AarToMif.partitionClasses,
      AarToMif.partition_fold_mem classes (AarToMif.allGlyphs classes) [] x]
    simp [AarToMif.mem_allGlyphs]
  refine ⟨?_, hmem, ?_, ?_⟩
  · have hpw : List.Pairwise
        (fun p q : List String × List String => p.1 ≠ q.1)
        (AarToMif.partitionClasses classes) :=
      List.pairwise_map.mp hkeys
    refine hpw.imp_of_mem ?_
    intro p q hp hq hne g hgp hgq
    exact hne ((hsig p hp g hgp).symm.trans (hsig q hq g hgq))
  · intro p hp g hg c
    rw [← hsig p hp g hg]
    exact AarToMif.mem_signature classes g c
  · intro g hnone p hp hg
    rcases (hmem g).1 ⟨p, hp, hg⟩ with ⟨c, hc, hgc⟩
    exact hnone c hc hgc

namespace GsubToAar

theorem findExistingClass_nil (g : List String) :
    findExistingClass [] g = none := rfl

theorem findExistingClass_cons (e : String × List String)
    (rest : List (String × List String)) (g : List String) :
    findExistingClass (e :: rest) g =
      if e.2 = g then some e.1 else findExistingClass rest g := rfl

theorem findExistingClass_append_none (l t : List (String × List String))
    (g : List String) (h : findExistingClass l g = none) :
    findExistingClass (l ++ t) g = findExistingClass t g := by
  induction l with
  | nil => simp
  | cons e rest ih =>
    rw [findExistingClass_cons] at h
    by_cases he : e.2 = g
    · rw [if_pos he] at h; cases h
    · rw [if_neg he] at h
      rw [List.cons_append, findExistingClass_cons, if_neg he]
      exact ih h

end GsubToAar

/-- Claim C9: register_inline_class is idempotent: a second call with an equal
glyph list returns the same class-name reference and leaves the converter
(inline classes and counter) unchanged, so no duplicate CLASS_nnn is ever
created for one glyph sequence. -/
theorem c9_register_inline_class_idempotent (conv : GsubToAar.GSUBToAAR)
    (glyphs : List String) :
    GsubToAar.registerInlineClass
        (GsubToAar.registerInlineClass conv glyphs).1 glyphs =
      GsubToAar.registerInlineClass conv glyphs := by
  cases h : GsubToAar.findExistingClass conv.inlineClasses glyphs with
  | some n => simp [GsubToAar.registerInlineClass, h]
  | none =>
    have h2 : GsubToAar.findExistingClass
        (conv.inlineClasses ++
          [("CLASS_" ++ GsubToAar.natPad3 (conv.classCounter + 1), glyphs)]) glyphs =
        some ("CLASS_" ++ GsubToAar.natPad3 (conv.classCounter + 1)) := by
      rw [GsubToAar.findExistingClass_append_none _ _ _ h,
        GsubToAar.findExistingClass_cons, if_pos rfl]
    simp [GsubToAar.registerInlineClass, h, h2]

namespace GposToKerx

theorem mem_marksOnlyAttaching_not_base (st : ConvState) (x : String)
    (h : x ∈ marksOnlyAttaching st) : x ∉ marksServingAsBases st := by
  unfold marksOnlyAttaching at h
  rw [mem_dedupFirst] at h
  rcases List.mem_flatMap.1 h with ⟨gn, _, hx⟩
  cases hfind : alistFind st.markGroups gn with
  | none => rw [hfind] at hx; simp at hx
  | some marks =>
    rw [hfind] at hx
    rcases List.mem_filterMap.1 hx with ⟨m, _, hmx⟩
    by_cases hb : m.1 ∈ marksServingAsBases st
    · simp [hb] at hmx
    · simp only [if_neg hb, Option.some.injEq] at hmx
      rw [← hmx]; exact hb

theorem table2_indices_all_one (st : ConvState) :
    ∀ a ∈ table2Assignments st, a.2.1 = 1 := by
  intro a ha
  rcases List.mem_append.1 ha with ha | ha
  · rcases List.mem_flatMap.1 ha with ⟨g, _, ha⟩
    rcases List.mem_filterMap.1 ha with ⟨grp, _, hsome⟩
    cases hfind : grp.2.find? (fun m => m.1 = g) with
    | none => rw [hfind] at hsome; cases hsome
    | some m =>
      rw [hfind] at hsome
      simp only [Option.some.injEq] at hsome
      rw [← hsome]
  · rcases List.mem_flatMap.1 ha with ⟨b, _, ha⟩
    rcases List.mem_map.1 ha with ⟨anch, _, heq⟩
    rw [← heq]

end GposToKerx

/-- Claim C2 (code bug): at the failing input, the base ka attaches only the
second mark group, and the emitted mark-to-base subtable assigns it the single
anchor index 1 with no index 0 — the index set has a gap, against the
contiguous range 0..k-1 the claim (and the file's own header comments)
require. -/
theorem c2_base_anchor_index_gap :
    GposToKerx.table1BaseAssignments GposToKerx.exGapState =
      [("ka", 1, 250, -20)] ∧
    GposToKerx.indicesOf (GposToKerx.table1Assignments GposToKerx.exGapState) "ka" =
      [1] ∧
    (0 : Nat) ∉
      GposToKerx.indicesOf (GposToKerx.table1Assignments GposToKerx.exGapState) "ka" := by
  refine ⟨by decide, by decide, by decide⟩

/-- Claim C3: a glyph that both serves as a mark2mark base (with at least one
stacking anchor) and belongs to a semantic group referenced by some mark2mark
base is excluded from the only-attaching marks, and the set of anchor indices
it receives in the mark-to-mark subtable is exactly the single index 1: the
two roles collapse to one index. -/
theorem c3_mark2mark_dual_role_single_index (st : GposToKerx.ConvState) (g : String)
    (hb : ∃ b ∈ st.mark2mark, b.1 = g ∧ b.2 ≠ [])
    (ha : ∃ gn ∈ GposToKerx.attachingGroups st,
        ∃ m ∈ (alistFind st.markGroups gn).getD [], m.1 = g) :
    g ∉ GposToKerx.marksOnlyAttaching st ∧
    GposToKerx.indicesOf (GposToKerx.table2Assignments st) g ≠ [] ∧
    (∀ i ∈ GposToKerx.indicesOf (GposToKerx.table2Assignments st) g, i = 1) := by
  obtain ⟨b, hbmem, hbg, hbne⟩ := hb
  refine ⟨?_, ?_, ?_⟩
  · intro hmem
    exact (GposToKerx.mem_marksOnlyAttaching_not_base st g hmem)
      (List.mem_map.2 ⟨b, hbmem, hbg⟩)
  · obtain ⟨anch, hanch⟩ := List.exists_mem_of_ne_nil b.2 hbne
    have hmem2 : (g, 1, anch.2.1, anch.2.2) ∈ GposToKerx.table2Assignments st := by
      refine List.mem_append.2 (Or.inr ?_)
      refine List.mem_flatMap.2 ⟨b, hbmem, ?_⟩
      refine List.mem_map.2 ⟨anch, hanch, ?_⟩
      rw [hbg]
    intro hnil
    have h1 : (1 : Nat) ∈ GposToKerx.indicesOf (GposToKerx.table2Assignments st) g := by
      unfold GposToKerx.indicesOf
      exact List.mem_filterMap.2 ⟨_, hmem2, by simp⟩
    rw [hnil] at h1
    cases h1
  · intro i hi
    unfold GposToKerx.indicesOf at hi
    rcases List.mem_filterMap.1 hi with ⟨a, hamem, haeq⟩
    by_cases hg : a.1 = g
    · simp only [if_pos hg, Option.some.injEq] at haeq
      rw [← haeq]
      exact GposToKerx.table2_indices_all_one st a hamem
    · simp [hg] at haeq

/-- Witness for C3: the dual-role mark acute of the concrete state receives
exactly index 1 in the mark-to-mark subtable. -/
theorem c3_mark2mark_dual_role_single_index_witness :
    "acute" ∉ GposToKerx.marksOnlyAttaching GposToKerx.exDualState ∧
    GposToKerx.indicesOf
        (GposToKerx.table2Assignments GposToKerx.exDualState) "acute" ≠ [] ∧
    (∀ i ∈ GposToKerx.indicesOf
        (GposToKerx.table2Assignments GposToKerx.exDualState) "acute", i = 1) :=
  c3_mark2mark_dual_role_single_index GposToKerx.exDualState "acute"
    (by decide) (by decide)

/-- Claim C7 (counterexample): the pattern over g1 g2 resolves to [g1, g3],
which is not a permutation of [g1, g2]; resolve_rearrangement_pattern
nevertheless accepts it and generate_lookup_output emits its reorder line, so
no permutation check or diagnostic rejection exists. -/
theorem c7_nonpermutation_accepted_cex :
    (¬ List.Perm ["g1", "g2"] ["g1", "g3"]) ∧
    GsubToAar.resolveRearrangementPattern GsubToAar.exConv GsubToAar.exPattern =
      some ⟨["g1", "g2"], ["g1", "g3"]⟩ ∧
    ("    g1 g2 > g1 g3") ∈
      (GsubToAar.generateLookupOutput GsubToAar.exConv GsubToAar.exReorderLookup).2.2 := by
  refine ⟨by decide, by decide, by decide⟩

/-- Claim C7 (amended): a rearrangement pattern is accepted, and its reorder
line emitted, exactly when every glyph resolves through its lookup and the
resolved sequence differs from the input — no permutation comparison occurs;
a pattern is rejected only when resolution fails or the output equals the
input. -/
theorem c7_resolve_rearrangement_no_permutation_check (conv : GsubToAar.GSUBToAAR)
    (lk : GsubToAar.ParsedLookup) (pat : GsubToAar.RearrangementPattern)
    (subs : List String)
    (hp : pat ∈ lk.rearrangementPatterns)
    (hs : GsubToAar.resolveSubsList conv (pat.glyphs.zip pat.lookupRefs) = some subs)
    (hne : subs ≠ pat.glyphs) :
    GsubToAar.resolveRearrangementPattern conv pat = some ⟨pat.glyphs, subs⟩ ∧
    ("    " ++ GsubToAar.joinSpace pat.glyphs ++ " > " ++ GsubToAar.joinSpace subs) ∈
      (GsubToAar.generateLookupOutput conv lk).2.2 ∧
    (∀ pat' : GsubToAar.RearrangementPattern,
      GsubToAar.resolveRearrangementPattern conv pat' = none ↔
        (GsubToAar.resolveSubsList conv (pat'.glyphs.zip pat'.lookupRefs) = none ∨
         GsubToAar.resolveSubsList conv (pat'.glyphs.zip pat'.lookupRefs) =
           some pat'.glyphs)) := by
  have hres : GsubToAar.resolveRearrangementPattern conv pat =
      some ⟨pat.glyphs, subs⟩ := by
    unfold GsubToAar.resolveRearrangementPattern
    rw [hs]
    simp [hne]
  refine ⟨hres, ?_, ?_⟩
  · have hrule : (⟨pat.glyphs, subs⟩ : GsubToAar.RearrangementRule) ∈
        (GsubToAar.resolveIntoLookup conv lk).rearrangementRules := by
      unfold GsubToAar.resolveIntoLookup
      exact List.mem_append.2 (Or.inr (List.mem_filterMap.2 ⟨pat, hp, hres⟩))
    have hline : ("    " ++ GsubToAar.joinSpace pat.glyphs ++ " > " ++
        GsubToAar.joinSpace subs) ∈
        GsubToAar.reorderSection (GsubToAar.resolveIntoLookup conv lk) := by
      unfold GsubToAar.reorderSection
      rw [if_pos (List.ne_nil_of_mem hrule)]
      refine List.mem_append.2 (Or.inl (List.mem_append.2 (Or.inr ?_)))
      exact List.mem_map.2 ⟨_, hrule, rfl⟩
    show _ ∈ (GsubToAar.generateLookupOutput conv lk).2.2
    unfold GsubToAar.generateLookupOutput
    simp only [List.mem_append]
    exact Or.inl (Or.inl (Or.inr hline))
  · intro pat'
    unfold GsubToAar.resolveRearrangementPattern
    cases hsl : GsubToAar.resolveSubsList conv (pat'.glyphs.zip pat'.lookupRefs) with
    | none => simp
    | some s =>
      by_cases heq : s = pat'.glyphs
      · simp [heq]
      · simp [heq]

/-- Witness for the amended C7: the concrete non-permutation pattern is
accepted. -/
theorem c7_resolve_rearrangement_no_permutation_check_witness :
    GsubToAar.resolveRearrangementPattern GsubToAar.exConv GsubToAar.exPattern =
      some ⟨["g1", "g2"], ["g1", "g3"]⟩ :=
  (c7_resolve_rearrangement_no_permutation_check GsubToAar.exConv
    GsubToAar.exReorderLookup GsubToAar.exPattern ["g1", "g3"]
    (by decide) (by decide) (by decide)).1

/-- Claim C8 (counterexample): the parser accepts the rule whose context
pattern has eleven classes, and the generator emits its substitution line next
to the sibling's — nothing rejects it, no PatternTooLongError exists anywhere
in the converter. -/
theorem c8_long_pattern_not_rejected_cex :
    AarToMif.parseContextualRules AarToMif.exLongContent =
      [AarToMif.Rule.contextual "after" AarToMif.exLongClasses "x" "y",
       AarToMif.Rule.contextual "after" ["@C1"] "z" "w"] ∧
    AarToMif.exLongClasses.length = 11 ∧
    ("    " ++ padRight "x" 16 ++ "y") ∈
      AarToMif.genContextual [] AarToMif.exLongLookup ∧
    ("    " ++ padRight "z" 16 ++ "w") ∈
      AarToMif.genContextual [] AarToMif.exLongLookup := by
  refine ⟨by decide, by decide, by decide, by decide⟩

/-- Claim C8 (amended): the contextual generator emits the substitution line
of every contextual rule of the lookup, with no bound on the length of its
context pattern and no diagnostic. -/
theorem c8_every_contextual_rule_emitted (classes : List (String × List String))
    (lk : AarToMif.Lookup) (ct : String) (ccs : List String) (src tgt : String)
    (hr : AarToMif.Rule.contextual ct ccs src tgt ∈ lk.rules) :
    ("    " ++ padRight src 16 ++ tgt) ∈ AarToMif.genContextual classes lk := by
  have h1 : ("    " ++ padRight src 16 ++ tgt) ∈
      AarToMif.stateMachineLines lk.rules
        (AarToMif.createContextualPartitions classes
          (AarToMif.analyzePredecessors lk.rules)).length := by
    unfold AarToMif.stateMachineLines
    refine List.mem_append.2 (Or.inr ?_)
    exact List.mem_filterMap.2 ⟨_, hr, rfl⟩
  unfold AarToMif.genContextual
  simp only [List.mem_append]
  exact Or.inl (Or.inr h1)

/-- Witness for the amended C8: the eleven-class rule's substitution line is
emitted. -/
theorem c8_every_contextual_rule_emitted_witness :
    ("    " ++ padRight "x" 16 ++ "y") ∈
      AarToMif.genContextual [] AarToMif.exLongLookup :=
  c8_every_contextual_rule_emitted [] AarToMif.exLongLookup
    "after" AarToMif.exLongClasses "x" "y" (by decide)

namespace GsubToAar

theorem Pre.reflexive (c : GSUBToAAR) : Pre c c :=
  ⟨⟨[], by simp⟩, Eq.refl _, Eq.refl _⟩

theorem Pre.trans {a b c : GSUBToAAR} (h1 : Pre a b) (h2 : Pre b c) : Pre a c := by
  obtain ⟨⟨t1, ht1⟩, hg1, ha1⟩ := h1
  obtain ⟨⟨t2, ht2⟩, hg2, ha2⟩ := h2
  exact ⟨⟨t1 ++ t2, by rw [ht2, ht1, List.append_assoc]⟩,
    hg2.trans hg1, ha2.trans ha1⟩

theorem findExistingClass_append_isSome (l t : List (String × List String))
    (g : List String) (h : (findExistingClass l g).isSome) :
    findExistingClass (l ++ t) g = findExistingClass l g := by
  induction l with
  | nil => rw [findExistingClass_nil] at h; cases h
  | cons e rest ih =>
    rw [List.cons_append, findExistingClass_cons, findExistingClass_cons]
    by_cases he : e.2 = g
    · rw [if_pos he, if_pos he]
    · rw [if_neg he, if_neg he]
      rw [findExistingClass_cons, if_neg he] at h
      exact ih h

theorem registerInlineClass_pre (conv : GSUBToAAR) (g : List String) :
    Pre conv (registerInlineClass conv g).1 := by
  cases h : findExistingClass conv.inlineClasses g with
  | some n =>
    have : registerInlineClass conv g = (conv, "@" ++ n) := by
      simp [registerInlineClass, h]
    rw [this]
    exact Pre.reflexive conv
  | none =>
    refine ⟨⟨[("CLASS_" ++ natPad3 (conv.classCounter + 1), g)], ?_⟩, ?_, ?_⟩ <;>
      simp [registerInlineClass, h]

theorem registerInlineClass_stable (conv : GSUBToAAR) (g : List String)
    (d : GSUBToAAR) (hd : Pre (registerInlineClass conv g).1 d) :
    registerInlineClass d g = (d, (registerInlineClass conv g).2) := by
  obtain ⟨⟨t, ht⟩, _, _⟩ := hd
  cases h : findExistingClass conv.inlineClasses g with
  | some n =>
    have h1 : registerInlineClass conv g = (conv, "@" ++ n) := by
      simp [registerInlineClass, h]
    rw [h1] at ht ⊢
    have hfd : findExistingClass d.inlineClasses g = some n := by
      rw [ht, findExistingClass_append_isSome _ _ _ (by rw [h]; exact Option.isSome_some), h]
    simp [registerInlineClass, hfd]
  | none =>
    have h1 : (registerInlineClass conv g).1.inlineClasses =
        conv.inlineClasses ++ [("CLASS_" ++ natPad3 (conv.classCounter + 1), g)] := by
      simp [registerInlineClass, h]
    have h2 : (registerInlineClass conv g).2 =
        "@" ++ ("CLASS_" ++ natPad3 (conv.classCounter + 1)) := by
      simp [registerInlineClass, h]
    have hfd : findExistingClass d.inlineClasses g =
        some ("CLASS_" ++ natPad3 (conv.classCounter + 1)) := by
      rw [ht, h1, List.append_assoc, findExistingClass_append_none _ _ _ h,
        List.singleton_append, findExistingClass_cons, if_pos rfl]
    rw [h2]
    simp [registerInlineClass, hfd]

theorem processPatternElement_eq_register (conv : GSUBToAAR) (e : String)
    (hb : pyIsBracketed e) (hg : bracketGlyphs e ≠ []) :
    processPatternElement conv e = registerInlineClass conv (bracketGlyphs e) := by
  simp [processPatternElement, hb, hg]

theorem processPatternElement_eq_id (conv : GSUBToAAR) (e : String)
    (h : ¬ pyIsBracketed e ∨ bracketGlyphs e = []) :
    processPatternElement conv e = (conv, e) := by
  rcases h with h | h <;> simp [processPatternElement, h]

theorem processPatternElement_pre (conv : GSUBToAAR) (e : String) :
    Pre conv (processPatternElement conv e).1 := by
  by_cases hb : pyIsBracketed e
  · by_cases hg : bracketGlyphs e ≠ []
    · rw [processPatternElement_eq_register conv e hb hg]
      exact registerInlineClass_pre conv (bracketGlyphs e)
    · rw [processPatternElement_eq_id conv e (Or.inr (not_not.1 hg))]
      exact Pre.reflexive conv
  · rw [processPatternElement_eq_id conv e (Or.inl hb)]
    exact Pre.reflexive conv

theorem processPatternElement_stable (conv : GSUBToAAR) (e : String)
    (d : GSUBToAAR) (hd : Pre (processPatternElement conv e).1 d) :
    processPatternElement d e = (d, (processPatternElement conv e).2) := by
  by_cases hb : pyIsBracketed e
  · by_cases hg : bracketGlyphs e ≠ []
    · rw [processPatternElement_eq_register conv e hb hg] at hd ⊢
      rw [processPatternElement_eq_register d e hb hg]
      exact registerInlineClass_stable conv (bracketGlyphs e) d hd
    · rw [processPatternElement_eq_id conv e (Or.inr (not_not.1 hg))]
      rw [processPatternElement_eq_id d e (Or.inr (not_not.1 hg))]
  · rw [processPatternElement_eq_id conv e (Or.inl hb)]
    rw [processPatternElement_eq_id d e (Or.inl hb)]

theorem processElements_pre (conv : GSUBToAAR) (es : List String) :
    Pre conv (processElements conv es).1 := by
  induction es generalizing conv with
  | nil => exact Pre.reflexive conv
  | cons e rest ih =>
    unfold processElements
    exact (processPatternElement_pre conv e).trans (ih _)

theorem processElements_stable (conv : GSUBToAAR) (es : List String)
    (d : GSUBToAAR) (hd : Pre (processElements conv es).1 d) :
    processElements d es = (d, (processElements conv es).2) := by
  induction es generalizing conv d with
  | nil => rfl
  | cons e rest ih =>
    unfold processElements at hd ⊢
    have hpre1 : Pre (processPatternElement conv e).1
        (processElements (processPatternElement conv e).1 rest).1 :=
      processElements_pre _ rest
    have h1 : processPatternElement d e = (d, (processPatternElement conv e).2) :=
      processPatternElement_stable conv e d (hpre1.trans hd)
    have h2 : processElements d rest =
        (d, (processElements (processPatternElement conv e).1 rest).2) :=
      ih (processPatternElement conv e).1 d hd
    rw [h1]
    simp only []
    rw [h2]

theorem expandClassReference_congr (c d : GSUBToAAR)
    (hg : d.globalClasses = c.globalClasses) (ha : d.allLookups = c.allLookups)
    (e : String) : expandClassReference d e = expandClassReference c e := by
  unfold expandClassReference
  rw [hg, ha]

theorem inlineLookupSubstitutions_congr (c d : GSUBToAAR)
    (ha : d.allLookups = c.allLookups) (n : String) :
    inlineLookupSubstitutions d n = inlineLookupSubstitutions c n := by
  unfold inlineLookupSubstitutions
  rw [ha]

theorem resolveRearrangementPattern_congr (c d : GSUBToAAR)
    (ha : d.allLookups = c.allLookups) (pat : RearrangementPattern) :
    resolveRearrangementPattern d pat = resolveRearrangementPattern c pat := by
  have hsubs : ∀ ps, resolveSubsList d ps = resolveSubsList c ps := by
    intro ps
    induction ps with
    | nil => rfl
    | cons p rest ih =>
      unfold resolveSubsList
      rw [ha, inlineLookupSubstitutions_congr c d ha, ih]
  unfold resolveRearrangementPattern
  rw [hsubs]

theorem contextualRulesFor_pre (conv : GSUBToAAR) (ctx : ContextualSubstitution)
    (mp : Nat) (ln tgt : String) :
    Pre conv (contextualRulesFor conv ctx mp ln tgt).1 := by
  simp only [contextualRulesFor]
  split_ifs <;>
    first
      | exact Pre.reflexive conv
      | exact processElements_pre _ _
      | exact (processElements_pre _ _).trans (processElements_pre _ _)

set_option maxHeartbeats 1600000 in
theorem contextualRulesFor_stable (conv : GSUBToAAR) (ctx : ContextualSubstitution)
    (mp : Nat) (ln tgt : String) (d : GSUBToAAR)
    (hd : Pre (contextualRulesFor conv ctx mp ln tgt).1 d) :
    contextualRulesFor d ctx mp ln tgt =
      (d, (contextualRulesFor conv ctx mp ln tgt).2) := by
  have hg : d.globalClasses = conv.globalClasses := by
    obtain ⟨_, hg2, _⟩ := hd
    obtain ⟨_, hg1, _⟩ := contextualRulesFor_pre conv ctx mp ln tgt
    exact hg2.trans hg1
  have ha : d.allLookups = conv.allLookups := by
    obtain ⟨_, _, ha2⟩ := hd
    obtain ⟨_, _, ha1⟩ := contextualRulesFor_pre conv ctx mp ln tgt
    exact ha2.trans ha1
  simp only [contextualRulesFor] at hd ⊢
  rw [expandClassReference_congr conv d hg ha tgt,
    inlineLookupSubstitutions_congr conv d ha ln]
  split_ifs at hd ⊢ with h1 h2 h3 h4 h5 h6 h7 h8 h9 h10 h11 h12
  all_goals first
    | rfl
    | (rw [processElements_stable conv _ d hd])
    | (rw [processElements_stable conv (ctx.context.take mp) d
          ((processElements_pre _ (ctx.context.drop (mp + 1))).trans hd),
        processElements_stable (processElements conv (ctx.context.take mp)).1
          (ctx.context.drop (mp + 1)) d hd])

theorem generateContextualRules_pre (conv : GSUBToAAR) (ctx : ContextualSubstitution) :
    Pre conv (generateContextualRules conv ctx).1 := by
  unfold generateContextualRules
  cases hm : ctx.markedIndices.head? with
  | none => simp only [hm]; exact Pre.reflexive conv
  | some mp =>
    simp only [hm]
    cases hl : alistFind ctx.lookupRefs mp with
    | none => simp only [hl]; exact Pre.reflexive conv
    | some ln =>
      simp only [hl]
      cases hc : ctx.context[mp]? with
      | none => simp only [hc]; exact Pre.reflexive conv
      | some tgt => simp only [hc]; exact contextualRulesFor_pre conv ctx mp ln tgt

theorem generateContextualRules_stable (conv : GSUBToAAR)
    (ctx : ContextualSubstitution) (d : GSUBToAAR)
    (hd : Pre (generateContextualRules conv ctx).1 d) :
    generateContextualRules d ctx = (d, (generateContextualRules conv ctx).2) := by
  unfold generateContextualRules at hd ⊢
  cases hm : ctx.markedIndices.head? with
  | none => simp only [hm]
  | some mp =>
    simp only [hm] at hd ⊢
    cases hl : alistFind ctx.lookupRefs mp with
    | none => simp only [hl]
    | some ln =>
      simp only [hl] at hd ⊢
      cases hc : ctx.context[mp]? with
      | none => simp only [hc]
      | some tgt =>
        simp only [hc] at hd ⊢
        exact contextualRulesFor_stable conv ctx mp ln tgt d hd

theorem contextualGrouped_pre (ctxs : List ContextualSubstitution) :
    ∀ (conv : GSUBToAAR) (grouped : List (String × List String)),
      Pre conv (contextualGrouped conv ctxs grouped).1 := by
  induction ctxs with
  | nil => intro conv grouped; exact Pre.reflexive conv
  | cons ctx rest ih =>
    intro conv grouped
    unfold contextualGrouped
    exact (generateContextualRules_pre conv ctx).trans (ih _ _)

theorem contextualGrouped_stable (ctxs : List ContextualSubstitution) :
    ∀ (conv : GSUBToAAR) (grouped : List (String × List String)) (d : GSUBToAAR),
      Pre (contextualGrouped conv ctxs grouped).1 d →
      contextualGrouped d ctxs grouped =
        (d, (contextualGrouped conv ctxs grouped).2) := by
  induction ctxs with
  | nil => intro conv grouped d _; rfl
  | cons ctx rest ih =>
    intro conv grouped d hd
    unfold contextualGrouped at hd ⊢
    have hpre : Pre (generateContextualRules conv ctx).1 d :=
      (contextualGrouped_pre rest _ _).trans hd
    rw [generateContextualRules_stable conv ctx d hpre]
    simp only []
    exact ih (generateContextualRules conv ctx).1 _ d hd

theorem contextualSection_pre (conv : GSUBToAAR) (lk : ParsedLookup) :
    Pre conv (contextualSection conv lk).1 := by
  unfold contextualSection
  by_cases h : lk.contextualSubs ≠ []
  · rw [if_pos h]; exact contextualGrouped_pre _ _ _
  · rw [if_neg h]; exact Pre.reflexive conv

theorem contextualSection_eq_of_ne (conv : GSUBToAAR) (lk : ParsedLookup)
    (h : lk.contextualSubs ≠ []) :
    contextualSection conv lk =
      ((contextualGrouped conv lk.contextualSubs []).1,
        ["@contextual \x7b"] ++
          renderGrouped (contextualGrouped conv lk.contextualSubs []).2 ++
          ["\x7d"]) := by
  simp only [contextualSection, if_pos h]

theorem contextualSection_eq_of_nil (conv : GSUBToAAR) (lk : ParsedLookup)
    (h : lk.contextualSubs = []) :
    contextualSection conv lk = (conv, []) := by
  simp [contextualSection, h]

theorem contextualSection_stable (conv : GSUBToAAR) (lk : ParsedLookup)
    (d : GSUBToAAR) (hd : Pre (contextualSection conv lk).1 d) :
    contextualSection d lk = (d, (contextualSection conv lk).2) := by
  by_cases h : lk.contextualSubs ≠ []
  · rw [contextualSection_eq_of_ne conv lk h] at hd ⊢
    rw [contextualSection_eq_of_ne d lk h,
      contextualGrouped_stable lk.contextualSubs conv [] d hd]
  · rw [contextualSection_eq_of_nil conv lk (not_not.1 h)] at hd ⊢
    rw [contextualSection_eq_of_nil d lk (not_not.1 h)]

end GsubToAar

/-- Claim C6 (counterexample): running generate_lookup_output a second time on
the same in-memory lookup (the state the first run left behind) does not
reproduce the first output — the resolved reorder rule is appended again and
its line is emitted twice. -/
theorem c6_reemission_duplicates_reorder_cex :
    (GsubToAar.generateLookupOutput GsubToAar.exConv GsubToAar.exReorderLookup).2.2 ≠
      (GsubToAar.generateLookupOutput
        (GsubToAar.generateLookupOutput GsubToAar.exConv GsubToAar.exReorderLookup).1
        (GsubToAar.generateLookupOutput GsubToAar.exConv
          GsubToAar.exReorderLookup).2.1).2.2 := by
  decide

/-- Claim C6 (amended): MIFGenerator.generate is idempotent — it resets its
output buffer, so a second run on the state of the first returns the identical
state and text; GSUBToAAR.generate_lookup_output is idempotent exactly on
lookups none of whose rearrangement patterns resolve — re-running it on the
converter and lookup the first call produced reproduces converter, lookup and
output — while a resolving pattern is appended again on every run (the
counterexample). -/
theorem c6_emission_idempotence :
    (∀ g : AarToMif.MIFGenerator,
      AarToMif.MIFGenerator.generate (AarToMif.MIFGenerator.generate g).1 =
        AarToMif.MIFGenerator.generate g) ∧
    (∀ (conv : GsubToAar.GSUBToAAR) (lk : GsubToAar.ParsedLookup),
      lk.rearrangementPatterns.filterMap
          (GsubToAar.resolveRearrangementPattern conv) = [] →
      GsubToAar.generateLookupOutput (GsubToAar.generateLookupOutput conv lk).1
          (GsubToAar.generateLookupOutput conv lk).2.1 =
        GsubToAar.generateLookupOutput conv lk) := by
  constructor
  · intro g; rfl
  · intro conv lk hf
    have hlk : GsubToAar.resolveIntoLookup conv lk = lk := by
      unfold GsubToAar.resolveIntoLookup
      rw [hf, List.append_nil]
    have hout : GsubToAar.generateLookupOutput conv lk =
        ((GsubToAar.contextualSection conv lk).1, lk,
          GsubToAar.lookupHeaderLines lk ++ GsubToAar.simpleSection lk ++
          GsubToAar.ligatureSection lk ++ GsubToAar.one2manySection lk ++
          GsubToAar.reorderSection lk ++
          (GsubToAar.contextualSection conv lk).2 ++ [""]) := by
      unfold GsubToAar.generateLookupOutput
      rw [hlk]
    have hall : ((GsubToAar.contextualSection conv lk).1).allLookups =
        conv.allLookups :=
      (GsubToAar.contextualSection_pre conv lk).2.2
    have hfun : GsubToAar.resolveRearrangementPattern
        (GsubToAar.contextualSection conv lk).1 =
        GsubToAar.resolveRearrangementPattern conv :=
      funext (fun pat =>
        GsubToAar.resolveRearrangementPattern_congr conv _ hall pat)
    have hlk1 : GsubToAar.resolveIntoLookup
        (GsubToAar.contextualSection conv lk).1 lk = lk := by
      unfold GsubToAar.resolveIntoLookup
      rw [hfun, hf, List.append_nil]
    have hsec : GsubToAar.contextualSection
        (GsubToAar.contextualSection conv lk).1 lk =
        ((GsubToAar.contextualSection conv lk).1,
          (GsubToAar.contextualSection conv lk).2) :=
      GsubToAar.contextualSection_stable conv lk _ (GsubToAar.Pre.reflexive _)
    rw [hout]
    show GsubToAar.generateLookupOutput (GsubToAar.contextualSection conv lk).1 lk = _
    unfold GsubToAar.generateLookupOutput
    rw [hlk1]
    dsimp only
    rw [hsec]

/-- Witness for the amended C6: on the lookup with one simple substitution and
no rearrangement patterns, a second run of generate_lookup_output reproduces
the first run exactly. -/
theorem c6_emission_idempotence_witness :
    GsubToAar.generateLookupOutput
        (GsubToAar.generateLookupOutput GsubToAar.exConv GsubToAar.exSimpleLookup).1
        (GsubToAar.generateLookupOutput GsubToAar.exConv
          GsubToAar.exSimpleLookup).2.1 =
      GsubToAar.generateLookupOutput GsubToAar.exConv GsubToAar.exSimpleLookup :=
  c6_emission_idempotence.2 GsubToAar.exConv GsubToAar.exSimpleLookup (by decide)

namespace GposFea

theorem groupsAux_snd (st : FeaState) :
    ∀ (keys processed : List String), ∀ p ∈ groupsAux st keys processed,
      p.2 = relatedClasses st p.1 := by
  intro keys
  induction keys with
  | nil => intro processed p hp; cases hp
  | cons c rest ih =>
    intro processed p hp
    unfold groupsAux at hp
    by_cases hc : c ∈ processed
    · rw [if_pos hc] at hp
      exact ih _ p hp
    · rw [if_neg hc] at hp
      rcases List.mem_cons.1 hp with rfl | hp
      · rfl
      · exact ih _ p hp

theorem addMarksLoop_spec (rep : String) (l : List (String × Int × Int)) :
    ∀ acc : List Mark, (acc.map Mark.glyph).Nodup →
      ((addMarksLoop rep acc l).map Mark.glyph).Nodup ∧
      (∀ m ∈ addMarksLoop rep acc l, m ∈ acc ∨
        (m.glyph ∉ acc.map Mark.glyph ∧
          l.find? (fun tr => tr.1 = m.glyph) = some (m.glyph, m.x, m.y))) ∧
      (∀ tr ∈ l, ∃ m ∈ addMarksLoop rep acc l, m.glyph = tr.1) ∧
      (∀ m ∈ acc, m ∈ addMarksLoop rep acc l) := by
  induction l with
  | nil =>
    intro acc hacc
    refine ⟨hacc, ?_, ?_, ?_⟩
    · intro m hm; exact Or.inl hm
    · intro tr htr; cases htr
    · intro m hm; exact hm
  | cons t rest ih =>
    intro acc hacc
    by_cases hmem : t.1 ∈ acc.map Mark.glyph
    · have heq : addMark acc ⟨t.1, t.2.1, t.2.2, rep⟩ = acc := by
        simp [addMark, hmem]
      unfold addMarksLoop
      rw [heq]
      obtain ⟨ih1, ih2, ih3, ih4⟩ := ih acc hacc
      refine ⟨ih1, ?_, ?_, ih4⟩
      · intro m hm
        rcases ih2 m hm with h | ⟨hng, hfind⟩
        · exact Or.inl h
        · refine Or.inr ⟨hng, ?_⟩
          have hne : ¬ (t.1 = m.glyph) := fun h => hng (h ▸ hmem)
          rw [List.find?_cons_of_neg _ (by simpa using hne)]
          exact hfind
      · intro tr htr
        rcases List.mem_cons.1 htr with rfl | htr
        · rcases List.mem_map.1 hmem with ⟨m', hm', hg'⟩
          exact ⟨m', ih4 m' hm', hg'⟩
        · exact ih3 tr htr
    · have heq : addMark acc ⟨t.1, t.2.1, t.2.2, rep⟩ =
          acc ++ [⟨t.1, t.2.1, t.2.2, rep⟩] := by
        simp [addMark, hmem]
      unfold addMarksLoop
      rw [heq]
      have hacc' : ((acc ++ [(⟨t.1, t.2.1, t.2.2, rep⟩ : Mark)]).map Mark.glyph).Nodup := by
        rw [List.map_append, List.nodup_append]
        refine ⟨hacc, by simp, ?_⟩
        intro x hx hx'
        simp only [List.map_cons, List.map_nil, List.mem_singleton] at hx'
        subst hx'
        exact hmem hx
      obtain ⟨ih1, ih2, ih3, ih4⟩ := ih _ hacc'
      refine ⟨ih1, ?_, ?_, ?_⟩
      · intro m hm
        rcases ih2 m hm with h | ⟨hng, hfind⟩
        · rcases List.mem_append.1 h with h | h
          · exact Or.inl h
          · simp only [List.mem_singleton] at h
            subst h
            refine Or.inr ⟨hmem, ?_⟩
            rw [List.find?_cons_of_pos _ (by simp)]
        · rw [List.map_append] at hng
          refine Or.inr ⟨fun hx => hng (List.mem_append.2 (Or.inl hx)), ?_⟩
          have hne : ¬ (t.1 = m.glyph) := by
            intro h
            exact hng (List.mem_append.2 (Or.inr (by simp [h])))
          rw [List.find?_cons_of_neg _ (by simpa using hne)]
          exact hfind
      · intro tr htr
        rcases List.mem_cons.1 htr with rfl | htr
        · exact ⟨⟨tr.1, tr.2.1, tr.2.2, rep⟩,
            ih4 _ (List.mem_append.2 (Or.inr (by simp))), rfl⟩
        · exact ih3 tr htr
      · intro m hm
        exact ih4 m (List.mem_append.2 (Or.inl hm))

theorem buildGroupMarks_spec (st : FeaState) (group : List String) :
    ((buildGroupMarks st group).map Mark.glyph).Nodup ∧
    (∀ m ∈ buildGroupMarks st group,
      (groupUniqueSortedMarks st group).find? (fun tr => tr.1 = m.glyph) =
        some (m.glyph, m.x, m.y)) ∧
    (∀ tr ∈ groupUniqueSortedMarks st group,
      ∃ m ∈ buildGroupMarks st group, m.glyph = tr.1) := by
  obtain ⟨h1, h2, h3, _⟩ :=
    addMarksLoop_spec (group.headD "") (groupUniqueSortedMarks st group) [] (by simp)
  refine ⟨h1, ?_, h3⟩
  intro m hm
  rcases h2 m hm with h | ⟨_, hfind⟩
  · cases h
  · exact hfind

theorem semanticGroups_marks_nodup (st : FeaState) :
    ∀ e ∈ semanticGroups st, (e.2.map Mark.glyph).Nodup := by
  intro e he
  rcases List.mem_map.1 he with ⟨ig, _, rfl⟩
  exact (buildGroupMarks_spec st ig.2.1.2).1

theorem snd_mem_of_mem_enum {α : Type} {x : ℕ × α} {l : List α}
    (h : x ∈ l.enum) : x.2 ∈ l := by
  obtain ⟨x1, x2⟩ := x
  obtain ⟨_, hlt, hx⟩ := List.mem_enumFrom h
  rw [hx]
  exact List.getElem_mem _

end GposFea

/-- Claim C5 (counterexample): classes A and B of the concrete state share the
identical triple (t, 3, 3) yet end up in different class groups and different
semantic groups, because each was already absorbed by an earlier scanned class
(L1 and L2) — the single-pass grouping is not a transitive union-find. -/
theorem c5_shared_triple_not_merged_cex :
    (("t", 3, 3) ∈ GposFea.marksOf GposFea.exChainState "A") ∧
    (("t", 3, 3) ∈ GposFea.marksOf GposFea.exChainState "B") ∧
    (∀ G ∈ GposFea.otClassGroups GposFea.exChainState, ¬("A" ∈ G ∧ "B" ∈ G)) ∧
    GposFea.otClassToSemantic GposFea.exChainState "A" = some "BOTTOM" ∧
    GposFea.otClassToSemantic GposFea.exChainState "B" = some "TOP" := by
  refine ⟨by decide, by decide, by decide, by decide, by decide⟩

/-- Claim C5 (amended): when a scanned class L is still unprocessed (a group
leader), every class sharing an identical (glyph, x, y) triple with L is
merged into L's group; the merge is a single step, not transitive, and every
semantic group lists each glyph at most once. -/
theorem c5_leader_absorbs_sharing_classes (st : GposFea.FeaState)
    (L B : String) (t : String × Int × Int) (bm : List (String × Int × Int))
    (hL : L ∈ GposFea.groupLeaders st)
    (ht : t ∈ GposFea.marksOf st L)
    (hB : (B, bm) ∈ st.otMarks)
    (htB : t ∈ bm) :
    (∃ G ∈ GposFea.otClassGroups st, L ∈ G ∧ B ∈ G) ∧
    (∀ e ∈ GposFea.semanticGroups st, (e.2.map GposFea.Mark.glyph).Nodup) := by
  constructor
  · rcases List.mem_map.1 hL with ⟨p, hp, hpL⟩
    have hsnd := GposFea.groupsAux_snd st _ _ p hp
    refine ⟨p.2, List.mem_map.2 ⟨p, hp, rfl⟩, ?_, ?_⟩
    · rw [hsnd, hpL]
      unfold GposFea.relatedClasses
      rw [mem_dedupFirst]
      exact List.mem_cons_self _ _
    · rw [hsnd, hpL]
      unfold GposFea.relatedClasses
      rw [mem_dedupFirst]
      refine List.mem_cons_of_mem _ (List.mem_flatMap.2 ⟨t, ht, ?_⟩)
      unfold GposFea.classesOfMark
      exact List.mem_map.2 ⟨(B, bm), List.mem_filter.2 ⟨hB, by simpa using htB⟩, rfl⟩
  · exact GposFea.semanticGroups_marks_nodup st

/-- Witness for the amended C5: the leader L1 absorbs class A, which shares
the triple (u, 1, 1) with it. -/
theorem c5_leader_absorbs_sharing_classes_witness :
    (∃ G ∈ GposFea.otClassGroups GposFea.exChainState, "L1" ∈ G ∧ "A" ∈ G) ∧
    (∀ e ∈ GposFea.semanticGroups GposFea.exChainState,
      (e.2.map GposFea.Mark.glyph).Nodup) :=
  c5_leader_absorbs_sharing_classes GposFea.exChainState "L1" "A" ("u", 1, 1)
    [("u", 1, 1), ("t", 3, 3)] (by decide) (by decide) (by decide) (by decide)

/-- Claim C10: every emitted semantic group lists each glyph name at most
once; each kept mark is the first entry with its glyph in the sorted unique
mark list the loop feeds to add_mark (later coordinates for the same glyph are
silently ignored), and no glyph of that list is dropped entirely. -/
theorem c10_semantic_group_glyphs_unique_first_kept (st : GposFea.FeaState)
    (e : String × List GposFea.Mark) (he : e ∈ GposFea.semanticGroups st) :
    (e.2.map GposFea.Mark.glyph).Nodup ∧
    ∃ group : List String,
      group ∈ (GposFea.sortedGroups st).map (fun p => p.1.2) ∧
      e.2 = GposFea.buildGroupMarks st group ∧
      (∀ m ∈ e.2, (GposFea.groupUniqueSortedMarks st group).find?
          (fun tr => tr.1 = m.glyph) = some (m.glyph, m.x, m.y)) ∧
      (∀ tr ∈ GposFea.groupUniqueSortedMarks st group,
        ∃ m ∈ e.2, m.glyph = tr.1) := by
  have hnodup := GposFea.semanticGroups_marks_nodup st e he
  rcases List.mem_map.1 he with ⟨ig, hig, rfl⟩
  refine ⟨hnodup, ig.2.1.2, ?_, rfl, ?_, ?_⟩
  · exact List.mem_map.2 ⟨ig.2, GposFea.snd_mem_of_mem_enum hig, rfl⟩
  · exact (GposFea.buildGroupMarks_spec st ig.2.1.2).2.1
  · exact (GposFea.buildGroupMarks_spec st ig.2.1.2).2.2

/-- Witness for C10: in the concrete state, the glyph s is recorded at (5, 5)
and (9, 9) inside the merged BOTTOM group; the emitted group keeps the first
sorted occurrence (5, 5) only. -/
theorem c10_semantic_group_glyphs_unique_first_kept_witness :
    ((("BOTTOM", [(⟨"a1", 0, 0, "A"⟩ : GposFea.Mark), ⟨"s", 5, 5, "A"⟩]) :
        String × List GposFea.Mark).2.map GposFea.Mark.glyph).Nodup ∧
    ∃ group : List String,
      group ∈ (GposFea.sortedGroups GposFea.exMedianState).map (fun p => p.1.2) ∧
      [(⟨"a1", 0, 0, "A"⟩ : GposFea.Mark), ⟨"s", 5, 5, "A"⟩] =
        GposFea.buildGroupMarks GposFea.exMedianState group ∧
      (∀ m ∈ [(⟨"a1", 0, 0, "A"⟩ : GposFea.Mark), ⟨"s", 5, 5, "A"⟩],
        (GposFea.groupUniqueSortedMarks GposFea.exMedianState group).find?
          (fun tr => tr.1 = m.glyph) = some (m.glyph, m.x, m.y)) ∧
      (∀ tr ∈ GposFea.groupUniqueSortedMarks GposFea.exMedianState group,
        ∃ m ∈ [(⟨"a1", 0, 0, "A"⟩ : GposFea.Mark), ⟨"s", 5, 5, "A"⟩],
          m.glyph = tr.1) :=
  c10_semantic_group_glyphs_unique_first_kept GposFea.exMedianState
    ("BOTTOM", [⟨"a1", 0, 0, "A"⟩, ⟨"s", 5, 5, "A"⟩]) (by decide)

namespace GposFea

theorem insertionSort_pair_stable {α : Type} (key : α → Int)
    [DecidableRel (fun x y : α => key x ≤ key y)] (l : List α) (a b : α)
    (hk : key a = key b) (hs : [a, b].Sublist l) :
    [a, b].Sublist (List.insertionSort (fun x y => key x ≤ key y) l) := by
  induction l with
  | nil => cases hs
  | cons x t ih =>
    rw [List.insertionSort]
    cases hs with
    | cons _ h =>
      exact (ih h).trans (List.sublist_orderedInsert x _)
    | cons₂ _ h =>
      rw [List.orderedInsert_eq_take_drop]
      have hb : b ∈ List.insertionSort (fun x y : α => key x ≤ key y) t :=
        (List.perm_insertionSort _ t).mem_iff.2 (List.singleton_sublist.1 h)
      have hbdrop : b ∈ (List.insertionSort (fun x y : α => key x ≤ key y) t).dropWhile
          (fun y => decide ¬ (key a ≤ key y)) := by
        rcases List.mem_append.1
            ((List.takeWhile_append_dropWhile
              (fun y => decide ¬ (key a ≤ key y))
              (List.insertionSort (fun x y : α => key x ≤ key y) t)) ▸ hb) with hmem | hmem
        · exfalso
          have h2 := List.mem_takeWhile_imp hmem
          simp only [decide_eq_true_eq] at h2
          exact h2 (le_of_eq hk)
        · exact hmem
      refine List.sublist_append_of_sublist_right ?_
      exact List.Sublist.cons₂ a (List.singleton_sublist.2 hbdrop)

end GposFea

/-- Claim C4 (counterexample): in the concrete state the merged group of A and
B has median attachment Y 1000 and class C's group has median 500, so the
claim names C's group BOTTOM; the code's key, which repeats base Ys once per
class of the group, sorts the A group first and names it BOTTOM instead. -/
theorem c4_median_ordering_cex :
    GposFea.leaderGroups GposFea.exMedianState =
      [("A", ["A", "B"]), ("C", ["C"])] ∧
    GposFea.specAttachmentMedian GposFea.exMedianState ["A", "B"] = 1000 ∧
    GposFea.specAttachmentMedian GposFea.exMedianState ["C"] = 500 ∧
    GposFea.medianKey GposFea.exMedianState ["A", "B"] = 0 ∧
    GposFea.otClassToSemantic GposFea.exMedianState "A" = some "BOTTOM" ∧
    GposFea.otClassToSemantic GposFea.exMedianState "C" = some "TOP" := by
  refine ⟨by decide, by decide, by decide, by decide, by decide, by decide⟩

/-- Claim C4 (amended): compute_semantic_groups orders the merged groups by
its computed key — the upper median of the base-attachment Ys repeated once
per class of the group plus the ligature-attachment Ys (falling back to the
upper median of the distinct mark Ys, 0 when none) — ascending, keeps groups
with equal keys in first-leader order (stable sort), and assigns names by
group count and position: 1 group ATTACHMENT_0; 2 groups BOTTOM then TOP;
3 groups BOTTOM, MIDDLE, TOP; otherwise ATTACHMENT_0..N-1. -/
theorem c4_group_order_and_naming (st : GposFea.FeaState) :
    List.Pairwise (fun a b : (String × List String) × Int => a.2 ≤ b.2)
      (GposFea.sortedGroups st) ∧
    (GposFea.sortedGroups st).Perm
      ((GposFea.leaderGroups st).map (fun g => (g, GposFea.medianKey st g.2))) ∧
    (GposFea.semanticGroups st).map Prod.fst =
      (List.range (GposFea.sortedGroups st).length).map
        (GposFea.semanticName (GposFea.sortedGroups st).length) ∧
    (∀ a b : (String × List String) × Int, a.2 = b.2 →
      [a, b].Sublist
        ((GposFea.leaderGroups st).map (fun g => (g, GposFea.medianKey st g.2))) →
      [a, b].Sublist (GposFea.sortedGroups st)) := by
  refine ⟨?_, ?_, ?_, ?_⟩
  · exact List.sorted_insertionSort
      (fun a b : (String × List String) × Int => a.2 ≤ b.2) _
  · exact List.perm_insertionSort _ _
  · show ((GposFea.sortedGroups st).enum.map (fun ig =>
        (GposFea.semanticName (GposFea.sortedGroups st).length ig.1,
          GposFea.buildGroupMarks st ig.2.1.2))).map Prod.fst = _
    rw [List.map_map, ← List.enum_map_fst (GposFea.sortedGroups st), List.map_map]
    rfl
  · intro a b hk hs
    exact GposFea.insertionSort_pair_stable (fun p => p.2) _ a b hk hs

/-- Witness for the amended C4: the two tied groups (both key 3) of the chain
state keep their scan order in the sorted list. -/
theorem c4_group_order_and_naming_witness :
    [((("L1", ["L1", "A"]), 3) : (String × List String) × Int),
     (("L2", ["L2", "B"]), 3)].Sublist
      (GposFea.sortedGroups GposFea.exChainState) :=
  (c4_group_order_and_naming GposFea.exChainState).2.2.2
    (("L1", ["L1", "A"]), 3) (("L2", ["L2", "B"]), 3) rfl (by decide)

/-- Witness for C1: on the spec's own example classes A = x y and B = y z, the
partition containing y carries the signature listing exactly A and B. -/
theorem c1_partition_disjoint_cover_signature_witness :
    ("B" ∈ (["A", "B"] : List String) ↔
      ∃ e ∈ [("A", ["x", "y"]), ("B", ["y", "z"])], e.1 = "B" ∧ "y" ∈ e.2) :=
  (c1_partition_disjoint_cover_signature
      [("A", ["x", "y"]), ("B", ["y", "z"])]).2.2.1
    (["A", "B"], ["y"]) (by decide) "y" (by decide) "B"
